import Mathlib

/-!
Verification of the certvet trust-validation engine.

Go strings are modelled as `List Char`; byte buffers as `List Nat` (each
element < 256); `time.Time` instants as `Int` nanoseconds since the Unix
epoch (`time.After` is strict `>`).  Fallible Go functions return
`Except`/`Option`.  The host X.509 path-verification primitive, the wall
clock and the certificate registry are explicit parameters (an `Env`),
since the engine treats them as external collaborators.
-/

namespace Certvet

/-! ## Character utilities -/

/-- ASCII whitespace recognised by `strings.TrimSpace` (tab 9, LF 10,
VT 11, FF 12, CR 13, space 32; the inputs of interest are ASCII, so the
Unicode space classes are not needed by any claim). -/
def isSpaceChar (c : Char) : Bool :=
  (9 ≤ c.toNat && c.toNat ≤ 13) || c.toNat == 32

/-- `strings.TrimSpace`. -/
def trimSpace (l : List Char) : List Char :=
  ((l.dropWhile isSpaceChar).reverse.dropWhile isSpaceChar).reverse

/-- Hex digit class `[0-9A-Fa-f]` used by `rawHexRe` / `separatorRe`
(codes 48–57 are `0-9`, 97–102 are `a-f`, 65–70 are `A-F`). -/
def isHexDigit (c : Char) : Bool :=
  (48 ≤ c.toNat && c.toNat ≤ 57) || (97 ≤ c.toNat && c.toNat ≤ 102) ||
  (65 ≤ c.toNat && c.toNat ≤ 70)

/-- Value of one hex digit (meaningful only when `isHexDigit c`). -/
def hexVal (c : Char) : Nat :=
  if 48 ≤ c.toNat && c.toNat ≤ 57 then c.toNat - 48
  else if 97 ≤ c.toNat && c.toNat ≤ 102 then c.toNat - 97 + 10
  else c.toNat - 65 + 10

/-- Decimal digit class `[0-9]`. -/
def isDigitChar (c : Char) : Bool := 48 ≤ c.toNat && c.toNat ≤ 57

/-! ## Fingerprint (internal/truststore/fingerprint.go) -/

/-- A SHA-256 fingerprint: the 32 raw bytes (`Fingerprint [32]byte`). -/
abbrev Fingerprint := List Nat

/-- `hex.DecodeString`: decodes pairs of hex digits into bytes; fails on an
odd-length input or a non-hex character. -/
def hexDecode : List Char → Option (List Nat)
  | [] => some []
  | [_] => none
  | c1 :: c2 :: rest =>
    if isHexDigit c1 && isHexDigit c2 then
      (hexDecode rest).map (fun bs => (16 * hexVal c1 + hexVal c2) :: bs)
    else none

/-- `rawHexRe`: `^[0-9A-Fa-f]{64}$`. -/
def rawHexMatch (l : List Char) : Bool :=
  l.length == 64 && l.all isHexDigit

/-- One alternative of `separatorRe`: a hex pair followed by `n` further
groups of (the fixed separator `sep`, then a hex pair). -/
def sepRun (sep : Char) : Nat → List Char → Bool
  | n, c1 :: c2 :: rest =>
    isHexDigit c1 && isHexDigit c2 &&
      (match n, rest with
       | 0, [] => true
       | Nat.succ m, s :: rest2 => s == sep && sepRun sep m rest2
       | _, _ => false)
  | _, _ => false

/-- `separatorRe`: 32 hex pairs joined by one consistent separator drawn
from `{':', '-', ' '}` (three anchored alternatives). -/
def separatorMatch (l : List Char) : Bool :=
  sepRun ':' 31 l || sepRun '-' 31 l || sepRun ' ' 31 l

/-- The pair list recovered by the participle grammar
(`fingerprint := PAIR (SEP PAIR)*`) on a `separatorRe`-validated input:
two chars form a pair, one separator char is skipped between pairs. -/
def splitPairs : List Char → List (List Char)
  | c1 :: c2 :: [] => [[c1, c2]]
  | c1 :: c2 :: _ :: rest => [c1, c2] :: splitPairs rest
  | _ => []

/-- `ParseFingerprint` after `strings.TrimSpace` (the body of the Go
function past the trim). -/
def parseFingerprintCore (input : List Char) : Except String Fingerprint :=
  if input.isEmpty then .error "empty fingerprint"
  else
    let hexStr? : Except String (List Char) :=
      if rawHexMatch input then .ok input
      else if separatorMatch input then
        let pairs := splitPairs input
        if pairs.length ≠ 32 then
          .error "invalid fingerprint length"
        else .ok pairs.flatten
      else
        .error "invalid fingerprint format: must be 64 hex chars or 32 hex pairs with consistent separator"
    match hexStr? with
    | .error e => .error e
    | .ok hexStr =>
      match hexDecode hexStr with
      | none => .error "invalid hex"
      | some bytes => .ok bytes

/-- `ParseFingerprint`: trims whitespace, then accepts raw-hex or
separator-delimited form. -/
def ParseFingerprint (input : List Char) : Except String Fingerprint :=
  parseFingerprintCore (trimSpace input)

/-- Whether a parse returned a value (`err == nil` in Go). -/
def exceptIsOk {e b : Type} : Except e b → Bool
  | .ok _ => true
  | .error _ => false

/-- The uppercase hex digit of a value `d < 16` (`fmt.Sprintf("%02X")`). -/
def hexDigitU (d : Nat) : Char :=
  (['0', '1', '2', '3', '4', '5', '6', '7', '8', '9',
    'A', 'B', 'C', 'D', 'E', 'F']).getD d '0'

/-- `fmt.Sprintf("%02X", b)` for a byte `b < 256`. -/
def byteHexPair (b : Nat) : List Char := [hexDigitU (b / 16), hexDigitU (b % 16)]

/-- `strings.Join(parts, sep)` for a one-character separator. -/
def joinSep (sep : Char) : List (List Char) → List Char
  | [] => []
  | [p] => p
  | p :: ps => p ++ sep :: joinSep sep ps

/-- `Fingerprint.String()`: the canonical `"AA:BB:...:FF"` form. -/
def fpString (f : Fingerprint) : List Char :=
  joinSep ':' (f.map byteHexPair)

/-- `Fingerprint.String()` as a Lean `String` (for failure messages). -/
def fpDisplay (f : Fingerprint) : String := ⟨fpString f⟩

/-! Shape predicates used to state the spec's accepted formats
independently of the implementation. -/

/-- Shape (a): 64 contiguous hex characters. -/
def rawShape (l : List Char) : Prop :=
  l.length = 64 ∧ ∀ c ∈ l, isHexDigit c = true

/-- Shape (b): 32 two-character hex groups joined by a single, consistent
separator drawn from `{':', '-', ' '}`. -/
def sepShape (l : List Char) : Prop :=
  ∃ sep ∈ [':', '-', ' '], ∃ pairs : List (List Char),
    pairs.length = 32 ∧
    (∀ p ∈ pairs, ∃ c1 c2, p = [c1, c2] ∧ isHexDigit c1 = true ∧ isHexDigit c2 = true) ∧
    l = joinSep sep pairs

instance : DecidablePred rawShape := by
  intro l; unfold rawShape; infer_instance

/-- An uppercase hex digit `[0-9A-F]`. -/
def isUpperHexDigit (c : Char) : Bool :=
  (48 ≤ c.toNat && c.toNat ≤ 57) || (65 ≤ c.toNat && c.toNat ≤ 70)

/-- Two characters that are equal, or are the same hex digit up to
letter case. -/
def sameHexChar (c c' : Char) : Prop :=
  c' = c ∨ (isHexDigit c = true ∧ isHexDigit c' = true ∧ hexVal c = hexVal c')

/-! ## Semantic versions

Models the external `Masterminds/semver/v3` library used by the source
(`NewVersion` and `Version.Compare`): lenient parsing of
`v?MAJOR(.MINOR)?(.PATCH)?(-PRERELEASE)?(+METADATA)?` with numeric
components limited to `uint64`, and precedence comparison on
(major, minor, patch, prerelease). -/

/-- Prerelease/metadata identifier characters: `[0-9A-Za-z-]`
(codes 97–122 are `a-z`, 65–90 are `A-Z`, 45 is `-`). -/
def isAlnumHyphen (c : Char) : Bool :=
  isDigitChar c || (97 ≤ c.toNat && c.toNat ≤ 122) ||
  (65 ≤ c.toNat && c.toNat ≤ 90) || c == '-'

/-- Dot-separated identifiers, each nonempty and over `[0-9A-Za-z-]`
(the `IDENT('.'IDENT)*` part of the version regular expression). -/
def dottedIdentsOK (l : List Char) : Bool :=
  (l.splitOn '.').all (fun g => !g.isEmpty && g.all isAlnumHyphen)

/-- Numeric value of a digit string. -/
def natOfDigits (l : List Char) : Nat :=
  l.foldl (fun a c => 10 * a + (c.toNat - '0'.toNat)) 0

/-- Greedily consumes one numeric component; fails when no digit is
present or the value overflows `uint64` (`strconv.ParseUint(_, 10, 64)`). -/
def parseNumComp (l : List Char) : Option (Nat × List Char) :=
  if (l.takeWhile isDigitChar).isEmpty then none
  else if natOfDigits (l.takeWhile isDigitChar) < 2 ^ 64 then
    some (natOfDigits (l.takeWhile isDigitChar), l.dropWhile isDigitChar)
  else none

/-- A parsed semantic version (metadata does not affect comparison and is
not stored, mirroring the fields `Compare` reads). -/
structure SemVer where
  major : Nat
  minor : Nat
  patch : Nat
  pre : List Char
deriving DecidableEq, Repr

/-- Parses the optional `-PRERELEASE` / `+METADATA` tail. -/
def parseTail (maj minn pat : Nat) (r : List Char) : Option SemVer :=
  match r with
  | [] => some ⟨maj, minn, pat, []⟩
  | '-' :: rest =>
    let pre := rest.takeWhile (fun c => c ≠ '+')
    let aft := rest.dropWhile (fun c => c ≠ '+')
    if dottedIdentsOK pre then
      match aft with
      | [] => some ⟨maj, minn, pat, pre⟩
      | _ :: meta => if dottedIdentsOK meta then some ⟨maj, minn, pat, pre⟩ else none
    else none
  | '+' :: meta => if dottedIdentsOK meta then some ⟨maj, minn, pat, []⟩ else none
  | _ => none

/-- `semver.NewVersion`: anchored match of the lenient version grammar. -/
def NewVersion (s : List Char) : Option SemVer :=
  let l := if s.head? = some 'v' then s.tail else s
  match parseNumComp l with
  | none => none
  | some (maj, r1) =>
    match r1 with
    | '.' :: rest1 =>
      match parseNumComp rest1 with
      | none => none
      | some (minn, r2) =>
        match r2 with
        | '.' :: rest2 =>
          match parseNumComp rest2 with
          | none => none
          | some (pat, r3) => parseTail maj minn pat r3
        | _ => parseTail maj minn 0 r2
    | _ => parseTail maj 0 0 r1

/-- Three-way comparison of naturals as `-1/0/1`. -/
def cmpNat (a b : Nat) : Int :=
  if a < b then -1 else if b < a then 1 else 0

/-- Go byte-wise lexicographic string `<` (on ASCII text, character-wise). -/
def listLt : List Char → List Char → Bool
  | [], [] => false
  | [], _ :: _ => true
  | _ :: _, [] => false
  | a :: as_, b :: bs =>
    if a.toNat < b.toNat then true
    else if b.toNat < a.toNat then false
    else listLt as_ bs

/-- `strconv.ParseInt(_, 10, 64)`: optional sign, digits, `int64` range. -/
def parseInt64 (l : List Char) : Option Int :=
  let core (ds : List Char) (neg : Bool) : Option Int :=
    if ds.isEmpty || !ds.all isDigitChar then none
    else
      let v : Int := (natOfDigits ds : Int)
      let v := if neg then -v else v
      if -(2 ^ 63) ≤ v ∧ v ≤ 2 ^ 63 - 1 then some v else none
  match l with
  | '+' :: ds => core ds false
  | '-' :: ds => core ds true
  | ds => core ds false

/-- `comparePrePart`: one dot-separated prerelease identifier against
another (numeric identifiers order below alphanumeric ones). -/
def comparePrePart (s o : List Char) : Int :=
  if s = o then 0
  else if s = [] then -1
  else if o = [] then 1
  else
    match parseInt64 s, parseInt64 o with
    | some n1, some n2 => if n1 > n2 then 1 else -1
    | some _, none => -1
    | none, some _ => 1
    | none, none => if listLt o s then 1 else -1

/-- `comparePrerelease` on the already-split identifier lists, padding the
shorter side with empty identifiers; a nonzero part comparison decides. -/
def comparePreParts : List (List Char) → List (List Char) → Int
  | [], [] => 0
  | s :: ss, o :: os =>
    if comparePrePart s o ≠ 0 then comparePrePart s o else comparePreParts ss os
  | s :: ss, [] =>
    if comparePrePart s [] ≠ 0 then comparePrePart s [] else comparePreParts ss []
  | [], o :: os =>
    if comparePrePart [] o ≠ 0 then comparePrePart [] o else comparePreParts [] os

/-- `comparePrerelease`. -/
def comparePrerelease (v o : List Char) : Int :=
  comparePreParts (v.splitOn '.') (o.splitOn '.')

/-- `Version.Compare`: major, minor, patch, then prerelease precedence
(a version without prerelease is greater than one with). -/
def svCompare (a b : SemVer) : Int :=
  if cmpNat a.major b.major ≠ 0 then cmpNat a.major b.major
  else if cmpNat a.minor b.minor ≠ 0 then cmpNat a.minor b.minor
  else if cmpNat a.patch b.patch ≠ 0 then cmpNat a.patch b.patch
  else if a.pre.isEmpty && b.pre.isEmpty then 0
  else if a.pre.isEmpty then 1
  else if b.pre.isEmpty then -1
  else comparePrerelease a.pre b.pre

/-! ## Version ordering (internal/version, src/unnamed/part_012) -/

/-- `version.Current`. -/
def currentStr : List Char := ['c', 'u', 'r', 'r', 'e', 'n', 't']

/-- `version.Compare`: "current" sentinel first, then semver comparison,
then the parseable-below-unparseable rule, then Go string order. -/
def Compare (a b : List Char) : Int :=
  if a = currentStr ∧ b = currentStr then 0
  else if a = currentStr then 1
  else if b = currentStr then -1
  else
    match NewVersion a, NewVersion b with
    | some va, some vb => svCompare va vb
    | some _, none => -1
    | none, some _ => 1
    | none, none =>
      if listLt a b then -1
      else if listLt b a then 1
      else 0

/-- A dotted-numeric version group: nonempty, all decimal digits, value
representable in `uint64` (spec-side notion for §4.2). -/
def numericGroup (g : List Char) : Prop :=
  g ≠ [] ∧ (∀ c ∈ g, isDigitChar c = true) ∧ natOfDigits g < 2 ^ 64

instance : DecidablePred numericGroup := by
  intro g; unfold numericGroup; infer_instance

/-- The numeric components of a dotted-numeric version with up to three
groups, padding the missing positions with 0 ("15" ≡ "15.0.0"). -/
def componentsOf : List (List Char) → Nat × Nat × Nat
  | [g1] => (natOfDigits g1, 0, 0)
  | [g1, g2] => (natOfDigits g1, natOfDigits g2, 0)
  | [g1, g2, g3] => (natOfDigits g1, natOfDigits g2, natOfDigits g3)
  | _ => (0, 0, 0)

/-- Component-wise numeric comparison of two component triples
(spec-side notion for §4.2). -/
def cmp3 (a b : Nat × Nat × Nat) : Int :=
  if cmpNat a.1 b.1 ≠ 0 then cmpNat a.1 b.1
  else if cmpNat a.2.1 b.2.1 ≠ 0 then cmpNat a.2.1 b.2.1
  else cmpNat a.2.2 b.2.2

/-! ## Filter engine (internal/filter/matcher.go) -/

/-- The five comparison operators (the source's per-operator strategy
objects become one tagged enumeration). -/
inductive Operator
  | opEqual
  | opGreater
  | opLess
  | opGreaterEqual
  | opLessEqual
deriving DecidableEq, Repr

/-- `MatchCurrentConstraint`: the constraint's version is `current`. -/
def matchCurrentConstraint : Operator → Bool → Bool
  | .opEqual, testIsCurrent => testIsCurrent
  | .opGreater, _ => false
  | .opLess, testIsCurrent => !testIsCurrent
  | .opGreaterEqual, testIsCurrent => testIsCurrent
  | .opLessEqual, _ => true

/-- `MatchCurrentVersion`: the test version is `current`, the constraint
is numeric. -/
def matchCurrentVersion : Operator → Bool
  | .opEqual => false
  | .opGreater => true
  | .opLess => false
  | .opGreaterEqual => true
  | .opLessEqual => false

/-- `MatchSemver`: on the `-1/0/1` result of `semver.Compare`. -/
def matchSemver : Operator → Int → Bool
  | .opEqual, cmp => cmp == 0
  | .opGreater, cmp => cmp > 0
  | .opLess, cmp => cmp < 0
  | .opGreaterEqual, cmp => cmp ≥ 0
  | .opLessEqual, cmp => cmp ≤ 0

/-- One parsed filter constraint. -/
structure Constraint where
  platform : String
  op : Operator
  version : Option SemVer
  isCurrent : Bool
deriving DecidableEq, Repr

/-- A parsed filter expression. -/
structure Filter where
  constraints : List Constraint
deriving DecidableEq, Repr

/-- A (platform, version) pair identifying one trust-store snapshot. -/
structure PlatformVersion where
  platform : String
  version : List Char
deriving DecidableEq, Repr

/-- `matchConstraint`: bare platform matches all; a `current` constraint
and a `current` test version are dispatched to the sentinel strategies;
otherwise both sides are numeric and compared as semver. -/
def matchConstraint (c : Constraint) (ver : List Char) : Bool :=
  match c.version, c.isCurrent with
  | none, false => true
  | _, true => matchCurrentConstraint c.op (ver = currentStr)
  | some cv, false =>
    if ver = currentStr then matchCurrentVersion c.op
    else
      match NewVersion ver with
      | none => false
      | some v => matchSemver c.op (svCompare v cv)

/-- `Filter.Match` on an optional filter (`nil` receiver matches all):
AND within the test's platform, absence of the platform rejects. -/
def filterMatch (f : Option Filter) (pv : PlatformVersion) : Bool :=
  match f with
  | none => true
  | some fl =>
    if fl.constraints.isEmpty then true
    else
      let mine := fl.constraints.filter (fun c => c.platform == pv.platform)
      if mine.isEmpty then false
      else mine.all (fun c => matchConstraint c pv.version)

/-! ## SCT extraction (internal/fetcher/fetcher.go) -/

/-- Where an SCT was obtained. -/
inductive SCTSource
  | tls
  | embedded
deriving DecidableEq, Repr

/-- A Signed Certificate Timestamp; the timestamp is an absolute UTC
instant (nanoseconds since the Unix epoch). -/
structure SCT where
  timestamp : Int
  logID : List Nat
  source : SCTSource
deriving DecidableEq, Repr

/-- `binary.BigEndian.Uint64` over a byte list. -/
def beUint64 (bytes : List Nat) : Nat :=
  bytes.foldl (fun acc b => acc * 256 + b) 0

/-- `time.Unix(ms/1000, (ms%1000)*1e6)` as an instant in nanoseconds. -/
def unixFromMs (ms : Nat) : Int :=
  ((ms / 1000 : Nat) : Int) * 1000000000 + ((ms % 1000 : Nat) : Int) * 1000000

/-- `parseSCT`: one RFC 6962 SCT record (minimum 45 bytes, version byte 0,
32-byte log ID, big-endian millisecond timestamp). -/
def parseSCT (data : List Nat) (source : SCTSource) : Except String SCT :=
  if data.length < 45 then
    .error ("SCT too short: " ++ toString data.length ++ " bytes")
  else
    let version := data.headD 0
    if version ≠ 0 then
      .error ("unsupported SCT version: " ++ toString version)
    else
      let logID := (data.drop 1).take 32
      let timestampMs := beUint64 ((data.drop 33).take 8)
      .ok ⟨unixFromMs timestampMs, logID, source⟩

/-! ## Trust store data model (internal/truststore/types.go) -/

/-- An X.509 certificate, abstracted to the fields the engine reads.
`fp` stands for the SHA-256 digest of the certificate's raw DER bytes
(`FingerprintFromCert`); the hash itself is treated as an opaque
content identity. -/
structure Cert where
  fp : Fingerprint
  notBefore : Int
  subjectCN : String
  subjectOrg : List String
deriving DecidableEq, Repr

/-- Per-CA date constraints (`Constraints`); each field is optional. -/
structure Constraints where
  notBeforeMax : Option Int
  distrustDate : Option Int
  sctNotAfter : Option Int
deriving DecidableEq, Repr

/-- `Constraints.IsEmpty`. -/
def Constraints.IsEmpty (c : Constraints) : Bool :=
  c.notBeforeMax.isNone && c.distrustDate.isNone && c.sctNotAfter.isNone

/-- One platform+version trust-store snapshot (`Store`); the constraint
map is modelled as an association list keyed by fingerprint. -/
structure Store where
  platform : String
  version : List Char
  fingerprints : List Fingerprint
  constraints : List (Fingerprint × Constraints)
deriving DecidableEq, Repr

/-- `Store.ConstraintFor`: map lookup, zero value when absent. -/
def Store.ConstraintFor (s : Store) (fp : Fingerprint) : Constraints :=
  match s.constraints.lookup fp with
  | some c => c
  | none => ⟨none, none, none⟩

/-- A server's certificate chain (`CertChain`). -/
structure CertChain where
  endpoint : String
  serverCert : Cert
  intermediates : List Cert
  scts : List SCT
deriving DecidableEq, Repr

/-- Validation result for one platform version (`TrustResult`). -/
structure TrustResult where
  platform : PlatformVersion
  trusted : Bool
  matchedCA : String
  verifiedChain : List Cert
  failureReason : String
deriving DecidableEq, Repr

/-! ## Validation engine (internal/validator/validator.go) -/

/-- The reasons of `x509.CertificateInvalidError` distinguished by
`parseVerifyError`. -/
inductive InvalidReason
  | expired
  | notAuthorizedToSign
  | tooManyIntermediates
  | incompatibleUsage
  | nameMismatch
  | caNotAuthorizedForThisName
  | otherReason
deriving DecidableEq, Repr

/-- An error returned by the host X.509 verification primitive.
`errText` models `err.Error()` where the fallback can reach it. -/
inductive VerifyError
  | unknownAuthority
  | certificateInvalid (reason : InvalidReason) (detail : String) (errText : String)
  | hostname (host : String)
  | other (errText : String)
deriving DecidableEq, Repr

/-- `parseVerifyError`: classifies a verification failure into a fixed
set of human-readable categories. -/
def parseVerifyError : VerifyError → String
  | .unknownAuthority => "certificate signed by unknown authority"
  | .certificateInvalid reason detail errText =>
    match reason with
    | .expired => "certificate has expired or is not yet valid"
    | .notAuthorizedToSign => "certificate is not authorized to sign other certificates"
    | .tooManyIntermediates => "too many intermediates for path length constraint"
    | .incompatibleUsage => "certificate specifies an incompatible key usage"
    | .nameMismatch => "issuer name does not match subject"
    | .caNotAuthorizedForThisName => "CA is not authorized for this name"
    | .otherReason => if detail ≠ "" then detail else errText
  | .hostname host => "certificate is not valid for " ++ host
  | .other errText => errText

/-- The external collaborators the engine reads: the certificate registry
(`getCertByFingerprint` over `truststore.Certs`), the host X.509 path
verification primitive (`ServerCert.Verify`, taking the leaf, the root
pool and the intermediate pool and returning the verified chains), and
the wall clock (`time.Now`). -/
structure Env where
  certByFingerprint : Fingerprint → Option Cert
  verify : Cert → List Cert → List Cert → Except VerifyError (List (List Cert))
  now : Int

/-- Civil date of a day count since 1970-01-01 (proleptic Gregorian);
used to model Go's `Format("2006-01-02")`. -/
def civilFromDays (z0 : Int) : Int × Nat × Nat :=
  let z := z0 + 719468
  let era := Int.fdiv z 146097
  let doe := (z - era * 146097).toNat
  let yoe := (doe - doe / 1460 + doe / 36524 - doe / 146096) / 365
  let doy := doe - (365 * yoe + yoe / 4 - yoe / 100)
  let mp := (5 * doy + 2) / 153
  let d := doy - (153 * mp + 2) / 5 + 1
  let m := if mp < 10 then mp + 3 else mp - 9
  ((yoe : Int) + era * 400 + (if m ≤ 2 then 1 else 0), m, d)

/-- Zero-pads a number to two digits. -/
def pad2 (n : Nat) : String :=
  if n < 10 then "0" ++ toString n else toString n

/-- `t.Format(truststore.DateFormat)` (`"2006-01-02"`) of an instant. -/
def formatDate (t : Int) : String :=
  let dmy := civilFromDays (Int.fdiv t 86400000000000)
  toString dmy.1 ++ "-" ++ pad2 dmy.2.1 ++ "-" ++ pad2 dmy.2.2

/-- The SCTNotAfter block of `checkConstraints` (reached when the two
earlier blocks did not return): violated when the chain has no SCTs at
all, otherwise when no SCT is at or before the deadline. -/
def checkSCTBlock (chain : CertChain) : Option Int → String
  | some d =>
    if chain.scts.isEmpty then
      "SCT required but none found (deadline: " ++ formatDate d ++ ")"
    else if chain.scts.all (fun sct => sct.timestamp > d) then
      "all SCTs issued after deadline (" ++ formatDate d ++ ")"
    else ""
  | none => ""

/-- The DistrustDate block of `checkConstraints`, continuing into the
SCTNotAfter block when it does not return. -/
def checkDistrustBlock (now : Int) (chain : CertChain) (cs : Constraints) : String :=
  match cs.distrustDate with
  | some d =>
    if now > d then "CA distrusted since " ++ formatDate d
    else checkSCTBlock chain cs.sctNotAfter
  | none => checkSCTBlock chain cs.sctNotAfter

/-- `checkConstraints`: evaluates NotBeforeMax, then DistrustDate, then
SCTNotAfter, returning the first violation's message, or `""` (the Go
early returns become else-continuations). -/
def checkConstraints (now : Int) (chain : CertChain) (cs : Constraints) : String :=
  if cs.IsEmpty then ""
  else
    match cs.notBeforeMax with
    | some d =>
      if chain.serverCert.notBefore > d then
        "certificate issued after trust cutoff (" ++
          formatDate chain.serverCert.notBefore ++ " > " ++ formatDate d ++ ")"
      else checkDistrustBlock now chain cs
    | none => checkDistrustBlock now chain cs

/-- Spec-side: the NotBeforeMax constraint is violated — the leaf
certificate's NotBefore is strictly after the constraint date. -/
def violatesNotBeforeMax (chain : CertChain) (cs : Constraints) : Prop :=
  ∃ d, cs.notBeforeMax = some d ∧ chain.serverCert.notBefore > d

/-- Spec-side: the DistrustDate constraint is violated — the current
wall-clock time is strictly after the constraint date. -/
def violatesDistrust (now : Int) (cs : Constraints) : Prop :=
  ∃ d, cs.distrustDate = some d ∧ now > d

/-- Spec-side: the SCTNotAfter constraint is violated — it is set, and
either the chain has zero SCTs or every SCT's timestamp is strictly
after the deadline. -/
def violatesSCT (chain : CertChain) (cs : Constraints) : Prop :=
  ∃ d, cs.sctNotAfter = some d ∧
    (chain.scts = [] ∨ ∀ sct ∈ chain.scts, sct.timestamp > d)

/-- `validateAgainstStore`: root-pool construction with missing-root
tracking, path verification, the known-but-unavailable-root diagnosis,
failure classification and constraint checking. -/
def validateAgainstStore (env : Env) (chain : CertChain) (store : Store) : TrustResult :=
  let pv : PlatformVersion := ⟨store.platform, store.version⟩
  let rootCerts := store.fingerprints.filterMap env.certByFingerprint
  let missingFingerprints :=
    store.fingerprints.filter (fun fp => (env.certByFingerprint fp).isNone)
  if rootCerts.isEmpty then
    ⟨pv, false, "", [], "no valid root certificates in trust store"⟩
  else
    match env.verify chain.serverCert rootCerts chain.intermediates with
    | .error err =>
      match chain.intermediates.getLast? with
      | some last =>
        if missingFingerprints.contains last.fp then
          ⟨pv, false, "", [],
            "chain roots at known CA (fingerprint " ++ fpDisplay last.fp ++
              ") but certificate data unavailable"⟩
        else ⟨pv, false, "", [], parseVerifyError err⟩
      | none => ⟨pv, false, "", [], parseVerifyError err⟩
    | .ok chains =>
      match chains with
      | firstChain :: _ =>
        match firstChain.getLast? with
        | some rootCert =>
          let matchedCA :=
            if rootCert.subjectCN ≠ "" then rootCert.subjectCN
            else match rootCert.subjectOrg with
              | o :: _ => o
              | [] => ""
          let constraints := store.ConstraintFor rootCert.fp
          let violation := checkConstraints env.now chain constraints
          if violation ≠ "" then ⟨pv, false, matchedCA, firstChain, violation⟩
          else ⟨pv, true, matchedCA, firstChain, ""⟩
        | none => ⟨pv, true, "", [], ""⟩
      | [] => ⟨pv, true, "", [], ""⟩

/-- The zero `TrustResult` a freshly made results slice holds before a
task writes its slot. -/
def zeroResult : TrustResult := ⟨⟨"", []⟩, false, "", [], ""⟩

/-- One goroutine's effect: task `i` writes its own slot `i` of the
results slice (an out-of-range write is a no-op, never produced by the
engine's launch loop). -/
def applyTask (env : Env) (chain : CertChain) (stores : List Store)
    (acc : List TrustResult) (i : Nat) : List TrustResult :=
  match stores.get? i with
  | some s => acc.set i (validateAgainstStore env chain s)
  | none => acc

/-- `ValidateChain` under an explicit completion schedule: the tasks'
writes land in the order given by `order` (the goroutines complete in an
arbitrary order; the join barrier then returns the slice). -/
def validateChainSched (env : Env) (chain : CertChain) (stores : List Store)
    (order : List Nat) : List TrustResult :=
  if stores.isEmpty then []
  else order.foldl (applyTask env chain stores) (List.replicate stores.length zeroResult)

/-- `ValidateChain`: every task index completes exactly once. -/
def ValidateChain (env : Env) (chain : CertChain) (stores : List Store) : List TrustResult :=
  validateChainSched env chain stores (List.range stores.length)

/-! ## Theorems -/

/-! ### C8: SCT record parsing -/

theorem beUint64_eight (a b c d e f g h : Nat) :
    beUint64 [a, b, c, d, e, f, g, h] =
      a * 256 ^ 7 + b * 256 ^ 6 + c * 256 ^ 5 + d * 256 ^ 4 +
      e * 256 ^ 3 + f * 256 ^ 2 + g * 256 + h := by
  simp only [beUint64, List.foldl]
  ring

theorem unixFromMs_eq (ms : Nat) : unixFromMs ms = (ms : Int) * 1000000 := by
  unfold unixFromMs
  have h := Nat.div_add_mod ms 1000
  push_cast
  omega

/-- C8: parseSCT rejects every buffer shorter than 45 bytes and every
buffer whose byte 0 is not 0 (v1); for every buffer of at least 45 bytes
with byte 0 equal to 0 it succeeds and returns an SCT whose LogID equals
bytes 1–32 and whose Timestamp is the big-endian 64-bit value of bytes
33–40 interpreted as milliseconds since the Unix epoch, converted to a
UTC instant; bytes past offset 40 never affect the returned SCT. -/
theorem parseSCT_spec :
    (∀ (data : List Nat) (src : SCTSource), data.length < 45 →
        ∃ e, parseSCT data src = .error e) ∧
    (∀ (data : List Nat) (src : SCTSource), data.headD 0 ≠ 0 →
        ∃ e, parseSCT data src = .error e) ∧
    (∀ (logid ts rest : List Nat) (src : SCTSource),
        (∀ x ∈ logid ++ ts ++ rest, x < 256) →
        logid.length = 32 →
        ∀ (a b c d e f g h : Nat), ts = [a, b, c, d, e, f, g, h] →
        4 ≤ rest.length →
        parseSCT (0 :: (logid ++ ts ++ rest)) src =
          .ok ⟨(a * 256 ^ 7 + b * 256 ^ 6 + c * 256 ^ 5 + d * 256 ^ 4 +
                e * 256 ^ 3 + f * 256 ^ 2 + g * 256 + h : Nat) * 1000000,
               logid, src⟩) ∧
    (∀ (data data' : List Nat) (src : SCTSource),
        data.take 41 = data'.take 41 → 45 ≤ data.length → 45 ≤ data'.length →
        parseSCT data src = parseSCT data' src) := by
  refine ⟨?_, ?_, ?_, ?_⟩
  · intro data src h
    unfold parseSCT
    rw [if_pos h]
    exact ⟨_, rfl⟩
  · intro data src h
    unfold parseSCT
    by_cases hlen : data.length < 45
    · rw [if_pos hlen]; exact ⟨_, rfl⟩
    · rw [if_neg hlen, if_pos h]; exact ⟨_, rfl⟩
  · intro logid ts rest src _ hlog a b c d e f g h hts hrest
    subst hts
    have hlen : (0 :: (logid ++ [a, b, c, d, e, f, g, h] ++ rest)).length = 41 + rest.length := by
      simp [hlog]; omega
    unfold parseSCT
    rw [if_neg (by omega)]
    have hhead : (0 :: (logid ++ [a, b, c, d, e, f, g, h] ++ rest)).headD 0 = 0 := rfl
    rw [hhead, if_neg (by simp)]
    have hdrop1 : (0 :: (logid ++ [a, b, c, d, e, f, g, h] ++ rest)).drop 1 =
        logid ++ ([a, b, c, d, e, f, g, h] ++ rest) := by simp
    have htake32 : (logid ++ ([a, b, c, d, e, f, g, h] ++ rest)).take 32 = logid := by
      rw [← hlog, List.take_left]
    have hdrop33 : (0 :: (logid ++ [a, b, c, d, e, f, g, h] ++ rest)).drop 33 =
        [a, b, c, d, e, f, g, h] ++ rest := by
      have : (33 : Nat) = 1 + 32 := rfl
      rw [this, ← List.drop_drop, hdrop1, ← hlog, List.drop_left]
    have htake8 : ([a, b, c, d, e, f, g, h] ++ rest).take 8 = [a, b, c, d, e, f, g, h] := by
      rw [List.take_append_of_le_length (by simp), List.take_of_length_le (by simp)]
    rw [hdrop1, htake32, hdrop33, htake8]
    simp only [beUint64_eight, unixFromMs_eq]
  · intro data data' src htake h1 h2
    have hhead : data.headD 0 = data'.headD 0 := by
      have h0 := congrArg (fun l => l.get? 0) htake
      cases data with
      | nil => simp at h1
      | cons x xs =>
        cases data' with
        | nil => simp at h2
        | cons y ys => simpa using h0
    have hseg1 : (data.drop 1).take 32 = (data'.drop 1).take 32 := by
      have := congrArg (fun l => (l.drop 1).take 32) htake
      simpa [List.drop_take, List.take_take] using this
    have hseg2 : (data.drop 33).take 8 = (data'.drop 33).take 8 := by
      have := congrArg (fun l => (l.drop 33).take 8) htake
      simpa [List.drop_take, List.take_take] using this
    unfold parseSCT
    rw [if_neg (by omega : ¬ data.length < 45), if_neg (by omega : ¬ data'.length < 45)]
    rw [hhead, hseg1, hseg2]

/-- Concrete application of `parseSCT_spec` (a 50-byte v1 record with
timestamp 1000 ms and log ID `1..32`). -/
theorem parseSCT_spec_witness :
    parseSCT (0 :: (((List.range 32).map (· + 1)) ++ [0, 0, 0, 0, 0, 0, 3, 232] ++
        List.replicate 9 0)) .tls =
      .ok ⟨(0 * 256 ^ 7 + 0 * 256 ^ 6 + 0 * 256 ^ 5 + 0 * 256 ^ 4 +
            0 * 256 ^ 3 + 0 * 256 ^ 2 + 3 * 256 + 232 : Nat) * 1000000,
           (List.range 32).map (· + 1), .tls⟩ :=
  parseSCT_spec.2.2.1 ((List.range 32).map (· + 1)) [0, 0, 0, 0, 0, 0, 3, 232]
    (List.replicate 9 0) .tls (by decide) (by decide)
    0 0 0 0 0 0 3 232 rfl (by decide)

/-! ### Fingerprint lemmas (C4, C5, C10) -/

theorem hexVal_lt16 {c : Char} (h : isHexDigit c = true) : hexVal c < 16 := by
  unfold isHexDigit at h
  unfold hexVal
  simp only [Bool.or_eq_true, Bool.and_eq_true, decide_eq_true_eq] at h
  split_ifs with h1 h2
  · simp only [Bool.and_eq_true, decide_eq_true_eq] at h1
    omega
  · simp only [Bool.and_eq_true, decide_eq_true_eq] at h2
    omega
  · simp only [Bool.and_eq_true, decide_eq_true_eq] at h1 h2
    omega

theorem hexDecode_all_hex : ∀ (l : List Char), l.length % 2 = 0 →
    (∀ c ∈ l, isHexDigit c = true) →
    ∃ bs, hexDecode l = some bs ∧ bs.length = l.length / 2 ∧ ∀ b ∈ bs, b < 256 := by
  intro l
  induction l using hexDecode.induct with
  | case1 =>
    intro _ _
    exact ⟨[], rfl, rfl, by simp⟩
  | case2 c =>
    intro h _
    simp at h
  | case3 c1 c2 rest hcond ih =>
    intro hlen hhex
    have h1 : isHexDigit c1 = true := hhex c1 (by simp)
    have h2 : isHexDigit c2 = true := hhex c2 (by simp)
    obtain ⟨bs, hbs, hblen, hbb⟩ := ih (by simp at hlen ⊢; omega)
      (fun c hc => hhex c (by simp [hc]))
    refine ⟨(16 * hexVal c1 + hexVal c2) :: bs, ?_, ?_, ?_⟩
    · unfold hexDecode
      rw [if_pos hcond, hbs]
      rfl
    · simp [hblen]; omega
    · intro b hb
      rcases List.mem_cons.mp hb with h | h
      · have := hexVal_lt16 h1
        have := hexVal_lt16 h2
        omega
      · exact hbb b h
  | case4 c1 c2 rest hcond =>
    intro _ hhex
    have h1 : isHexDigit c1 = true := hhex c1 (by simp)
    have h2 : isHexDigit c2 = true := hhex c2 (by simp)
    simp [h1, h2] at hcond

theorem rawHexMatch_iff (l : List Char) : rawHexMatch l = true ↔ rawShape l := by
  unfold rawHexMatch rawShape
  simp [List.all_eq_true]

theorem joinSep_cons (sep : Char) (p : List Char) {ps : List (List Char)}
    (h : ps ≠ []) : joinSep sep (p :: ps) = p ++ sep :: joinSep sep ps := by
  cases ps with
  | nil => exact absurd rfl h
  | cons q qs => rfl

theorem sepRun_iff (sep : Char) : ∀ (n : Nat) (l : List Char),
    sepRun sep n l = true ↔
      ∃ pairs : List (List Char), pairs.length = n + 1 ∧
        (∀ p ∈ pairs, ∃ c1 c2, p = [c1, c2] ∧
          isHexDigit c1 = true ∧ isHexDigit c2 = true) ∧
        l = joinSep sep pairs := by
  intro n
  induction n with
  | zero =>
    intro l
    constructor
    · intro h
      match l with
      | [] => simp [sepRun] at h
      | [c] => simp [sepRun] at h
      | c1 :: c2 :: rest =>
        cases rest with
        | nil =>
          simp only [sepRun, Bool.and_eq_true] at h
          refine ⟨[[c1, c2]], rfl, ?_, rfl⟩
          intro p hp
          simp only [List.mem_singleton] at hp
          exact ⟨c1, c2, hp, h.1.1, h.1.2⟩
        | cons s rest2 => simp [sepRun] at h
    · rintro ⟨pairs, hlen, hpair, rfl⟩
      cases pairs with
      | nil => simp at hlen
      | cons p ps =>
        cases ps with
        | nil =>
          obtain ⟨c1, c2, rfl, h1, h2⟩ := hpair p (by simp)
          simp [joinSep, sepRun, h1, h2]
        | cons q qs => simp at hlen
  | succ n ih =>
    intro l
    constructor
    · intro h
      match l with
      | [] => simp [sepRun] at h
      | [c] => simp [sepRun] at h
      | c1 :: c2 :: rest =>
        cases rest with
        | nil => simp [sepRun] at h
        | cons s rest2 =>
          simp only [sepRun, Bool.and_eq_true, beq_iff_eq] at h
          obtain ⟨⟨h1, h2⟩, hs, hrun⟩ := h
          obtain ⟨pairs, hplen, hpair, rfl⟩ := (ih rest2).mp hrun
          refine ⟨[c1, c2] :: pairs, by simp [hplen], ?_, ?_⟩
          · intro p hp
            rcases List.mem_cons.mp hp with h' | h'
            · exact ⟨c1, c2, h', h1, h2⟩
            · exact hpair p h'
          · rw [joinSep_cons sep [c1, c2] (by intro hc; rw [hc] at hplen; simp at hplen)]
            simp [hs]
    · rintro ⟨pairs, hlen, hpair, rfl⟩
      cases pairs with
      | nil => simp at hlen
      | cons p pairs' =>
        have hplen : pairs'.length = n + 1 := by simpa using hlen
        obtain ⟨c1, c2, rfl, h1, h2⟩ := hpair p (by simp)
        rw [joinSep_cons sep [c1, c2] (by intro hc; rw [hc] at hplen; simp at hplen)]
        simp only [List.cons_append, List.nil_append, sepRun, Bool.and_eq_true, beq_iff_eq]
        refine ⟨⟨h1, h2⟩, by trivial, ?_⟩
        exact (ih (joinSep sep pairs')).mpr
          ⟨pairs', hplen, fun r hr => hpair r (by simp [hr]), rfl⟩

theorem splitPairs_joinSep (sep : Char) : ∀ (pairs : List (List Char)),
    (∀ p ∈ pairs, ∃ c1 c2, p = [c1, c2]) → pairs ≠ [] →
    splitPairs (joinSep sep pairs) = pairs := by
  intro pairs
  induction pairs with
  | nil => intro _ h; exact absurd rfl h
  | cons p ps ih =>
    intro hpair _
    obtain ⟨c1, c2, rfl⟩ := hpair p (by simp)
    cases ps with
    | nil => rfl
    | cons q qs =>
      rw [joinSep_cons sep [c1, c2] (by simp)]
      simp only [List.cons_append, List.nil_append, splitPairs]
      rw [ih (fun r hr => hpair r (by simp [hr])) (by simp)]

theorem append_length_ne_zero {a : String} (b : String) (ha : a.length ≠ 0) :
    (a ++ b).length ≠ 0 := by
  simp only [String.length_append]
  omega

theorem append_ne_empty {a : String} (b : String) (ha : a.length ≠ 0) :
    a ++ b ≠ "" := by
  intro h
  have := congrArg String.length h
  simp only [String.length_append] at this
  have : a.length = 0 := by
    have hz : ("" : String).length = 0 := rfl
    omega
  exact ha this

theorem checkSCTBlock_empty_iff (chain : CertChain) (sa : Option Int) :
    checkSCTBlock chain sa = "" ↔
      ¬∃ d, sa = some d ∧
        (chain.scts = [] ∨ ∀ sct ∈ chain.scts, sct.timestamp > d) := by
  cases sa with
  | none => simp [checkSCTBlock]
  | some d =>
    simp only [checkSCTBlock]
    split_ifs with h1 h2
    · have h0 : ("SCT required but none found (deadline: " ++ formatDate d).length ≠ 0 :=
        @append_length_ne_zero "SCT required but none found (deadline: " (formatDate d) (by decide)
      have hne := @append_ne_empty _ ")" h0
      simp only [List.isEmpty_iff] at h1
      exact ⟨fun h => absurd h hne,
        fun hno => (hno ⟨d, rfl, Or.inl h1⟩).elim⟩
    · have h0 : ("all SCTs issued after deadline (" ++ formatDate d).length ≠ 0 :=
        @append_length_ne_zero "all SCTs issued after deadline (" (formatDate d) (by decide)
      have hne := @append_ne_empty _ ")" h0
      simp only [List.all_eq_true, decide_eq_true_eq] at h2
      exact ⟨fun h => absurd h hne,
        fun hno => (hno ⟨d, rfl, Or.inr h2⟩).elim⟩
    · simp only [List.isEmpty_iff] at h1
      simp only [List.all_eq_true, decide_eq_true_eq] at h2
      constructor
      · rintro - ⟨d', hd', hor⟩
        obtain rfl : d' = d := by injection hd' with h; exact h.symm
        rcases hor with h | h
        · exact h1 h
        · exact h2 h
      · intro _; rfl

theorem checkDistrustBlock_empty_iff (now : Int) (chain : CertChain) (cs : Constraints) :
    checkDistrustBlock now chain cs = "" ↔
      ¬violatesDistrust now cs ∧ ¬violatesSCT chain cs := by
  unfold checkDistrustBlock violatesDistrust violatesSCT
  cases hdd : cs.distrustDate with
  | none =>
    dsimp only
    rw [checkSCTBlock_empty_iff]
    simp
  | some d =>
    dsimp only
    split_ifs with h
    · have hne := @append_ne_empty "CA distrusted since " (formatDate d) (by decide)
      constructor
      · intro hmsg; exact absurd hmsg hne
      · rintro ⟨hnd, -⟩; exact (hnd ⟨d, rfl, h⟩).elim
    · rw [checkSCTBlock_empty_iff]
      constructor
      · intro hs
        refine ⟨?_, hs⟩
        rintro ⟨d', hd', hlt⟩
        obtain rfl : d' = d := by injection hd' with h'; exact h'.symm
        exact h hlt
      · rintro ⟨-, hs⟩; exact hs

/-- C1: constraint checking evaluates NotBeforeMax, then DistrustDate,
then SCTNotAfter and reports the first violation found: the result is
empty iff no constraint is violated; NotBeforeMax is violated iff the
leaf's NotBefore is strictly after the constraint date; DistrustDate is
violated iff "now" is strictly after the constraint date; with
SCTNotAfter set, zero SCTs yield a violation whose reason starts with
"SCT required but none found", otherwise the constraint is violated iff
every SCT's timestamp is strictly after the deadline, so one SCT at or
before the deadline suffices to pass. -/
theorem checkConstraints_spec (now : Int) (chain : CertChain) (cs : Constraints) :
    (checkConstraints now chain cs = "" ↔
      ¬violatesNotBeforeMax chain cs ∧ ¬violatesDistrust now cs ∧
        ¬violatesSCT chain cs) ∧
    (∀ d, cs.notBeforeMax = some d → chain.serverCert.notBefore > d →
      checkConstraints now chain cs =
        "certificate issued after trust cutoff (" ++
          formatDate chain.serverCert.notBefore ++ " > " ++ formatDate d ++ ")") ∧
    (∀ d, ¬violatesNotBeforeMax chain cs → cs.distrustDate = some d → now > d →
      checkConstraints now chain cs = "CA distrusted since " ++ formatDate d) ∧
    (∀ d, ¬violatesNotBeforeMax chain cs → ¬violatesDistrust now cs →
      cs.sctNotAfter = some d → chain.scts = [] →
      checkConstraints now chain cs =
          "SCT required but none found (deadline: " ++ formatDate d ++ ")" ∧
        ∃ rest, checkConstraints now chain cs =
          "SCT required but none found" ++ rest) ∧
    (∀ d, ¬violatesNotBeforeMax chain cs → ¬violatesDistrust now cs →
      cs.sctNotAfter = some d → chain.scts ≠ [] →
      (∀ sct ∈ chain.scts, sct.timestamp > d) →
      checkConstraints now chain cs =
        "all SCTs issued after deadline (" ++ formatDate d ++ ")") ∧
    (∀ d sct, cs.sctNotAfter = some d → sct ∈ chain.scts → sct.timestamp ≤ d →
      ¬violatesSCT chain cs) := by
  have hblocks : ¬cs.IsEmpty = true → cs.notBeforeMax = none →
      checkConstraints now chain cs = checkDistrustBlock now chain cs := by
    intro hne hnb
    unfold checkConstraints
    rw [if_neg hne, hnb]
  refine ⟨?_, ?_, ?_, ?_, ?_, ?_⟩
  · unfold checkConstraints
    by_cases hemp : cs.IsEmpty = true
    · obtain ⟨hnb, hdd, hsa⟩ : cs.notBeforeMax = none ∧ cs.distrustDate = none ∧
          cs.sctNotAfter = none := by
        unfold Constraints.IsEmpty at hemp
        simp only [Bool.and_eq_true, Option.isNone_iff_eq_none] at hemp
        exact ⟨hemp.1.1, hemp.1.2, hemp.2⟩
      rw [if_pos hemp]
      simp [violatesNotBeforeMax, violatesDistrust, violatesSCT, hnb, hdd, hsa]
    · rw [if_neg hemp]
      cases hnb : cs.notBeforeMax with
      | none =>
        dsimp only
        rw [checkDistrustBlock_empty_iff]
        simp [violatesNotBeforeMax, hnb]
      | some d =>
        dsimp only
        split_ifs with h
        · have q1 : ("certificate issued after trust cutoff (" ++
              formatDate chain.serverCert.notBefore).length ≠ 0 :=
            @append_length_ne_zero "certificate issued after trust cutoff ("
              (formatDate chain.serverCert.notBefore) (by decide)
          have q2 := @append_length_ne_zero _ " > " q1
          have q3 := @append_length_ne_zero _ (formatDate d) q2
          have hne := @append_ne_empty _ ")" q3
          constructor
          · intro hmsg; exact absurd hmsg hne
          · rintro ⟨hv, -, -⟩
            exact (hv ⟨d, hnb, h⟩).elim
        · rw [checkDistrustBlock_empty_iff]
          constructor
          · rintro ⟨h2, h3⟩
            refine ⟨?_, h2, h3⟩
            rintro ⟨d', hd', hlt⟩
            rw [hnb] at hd'
            obtain rfl : d' = d := by injection hd' with h'; exact h'.symm
            exact h hlt
          · rintro ⟨-, h2, h3⟩; exact ⟨h2, h3⟩
  · intro d hnb hlt
    have hemp : ¬cs.IsEmpty = true := by
      unfold Constraints.IsEmpty
      simp [hnb]
    unfold checkConstraints
    rw [if_neg hemp, hnb]
    dsimp only
    rw [if_pos hlt]
  · intro d hv1 hdd hlt
    have hemp : ¬cs.IsEmpty = true := by
      unfold Constraints.IsEmpty
      simp [hdd]
    have hdb : checkDistrustBlock now chain cs = "CA distrusted since " ++ formatDate d := by
      unfold checkDistrustBlock
      rw [hdd]
      dsimp only
      rw [if_pos hlt]
    unfold checkConstraints
    rw [if_neg hemp]
    cases hnb : cs.notBeforeMax with
    | none => exact hdb
    | some d' =>
      dsimp only
      rw [if_neg (fun hlt' => hv1 ⟨d', hnb, hlt'⟩)]
      exact hdb
  · intro d hv1 hv2 hsa hscts
    have hemp : ¬cs.IsEmpty = true := by
      unfold Constraints.IsEmpty
      simp [hsa]
    have hsct : checkSCTBlock chain cs.sctNotAfter =
        "SCT required but none found (deadline: " ++ formatDate d ++ ")" := by
      rw [hsa]
      simp [checkSCTBlock, hscts]
    have hdb : checkDistrustBlock now chain cs = checkSCTBlock chain cs.sctNotAfter := by
      unfold checkDistrustBlock
      cases hdd : cs.distrustDate with
      | none => rfl
      | some d' =>
        dsimp only
        rw [if_neg (fun hlt' => hv2 ⟨d', hdd, hlt'⟩)]
    have hcc : checkConstraints now chain cs =
        "SCT required but none found (deadline: " ++ formatDate d ++ ")" := by
      unfold checkConstraints
      rw [if_neg hemp]
      cases hnb : cs.notBeforeMax with
      | none => dsimp only; rw [hdb, hsct]
      | some d' =>
        dsimp only
        rw [if_neg (fun hlt' => hv1 ⟨d', hnb, hlt'⟩), hdb, hsct]
    refine ⟨hcc, " (deadline: " ++ formatDate d ++ ")", ?_⟩
    rw [hcc]
    have hlit : ("SCT required but none found" : String) ++ " (deadline: " =
        "SCT required but none found (deadline: " := by decide
    rw [← String.append_assoc, ← String.append_assoc, hlit]
  · intro d hv1 hv2 hsa hne hall
    have hemp : ¬cs.IsEmpty = true := by
      unfold Constraints.IsEmpty
      simp [hsa]
    have hsct : checkSCTBlock chain cs.sctNotAfter =
        "all SCTs issued after deadline (" ++ formatDate d ++ ")" := by
      rw [hsa]
      simp only [checkSCTBlock]
      rw [if_neg (by simpa [List.isEmpty_iff] using hne)]
      rw [if_pos (by simpa [List.all_eq_true] using hall)]
    have hdb : checkDistrustBlock now chain cs = checkSCTBlock chain cs.sctNotAfter := by
      unfold checkDistrustBlock
      cases hdd : cs.distrustDate with
      | none => rfl
      | some d' =>
        dsimp only
        rw [if_neg (fun hlt' => hv2 ⟨d', hdd, hlt'⟩)]
    unfold checkConstraints
    rw [if_neg hemp]
    cases hnb : cs.notBeforeMax with
    | none => dsimp only; rw [hdb, hsct]
    | some d' =>
      dsimp only
      rw [if_neg (fun hlt' => hv1 ⟨d', hnb, hlt'⟩), hdb, hsct]
  · rintro d sct hsa hmem hle ⟨d', hd', hor⟩
    rw [hsa] at hd'
    obtain rfl : d' = d := by injection hd' with h'; exact h'.symm
    rcases hor with h | h
    · rw [h] at hmem; exact absurd hmem (List.not_mem_nil sct)
    · exact absurd hle (by simpa using (h sct hmem).not_le)

/-- Concrete application of `checkConstraints_spec`: a distrust date in
the past relative to "now" yields the distrust message. -/
theorem checkConstraints_spec_witness :
    checkConstraints 100 ⟨"e", ⟨[], 0, "", []⟩, [], []⟩ ⟨none, some 4, none⟩ =
      "CA distrusted since " ++ formatDate 4 :=
  (checkConstraints_spec 100 ⟨"e", ⟨[], 0, "", []⟩, [], []⟩ ⟨none, some 4, none⟩).2.2.1 4
    (by rintro ⟨d, hd, -⟩; exact Option.noConfusion hd) rfl (by norm_num)

/-! ### C6: version ordering -/

theorem cmpNat_cases (a b : Nat) : cmpNat a b = -1 ∨ cmpNat a b = 0 ∨ cmpNat a b = 1 := by
  unfold cmpNat; split_ifs <;> simp

theorem newVersion_currentStr : NewVersion currentStr = none := rfl

theorem comparePrePart_cases (s o : List Char) :
    comparePrePart s o = -1 ∨ comparePrePart s o = 0 ∨ comparePrePart s o = 1 := by
  unfold comparePrePart
  by_cases h1 : s = o
  · rw [if_pos h1]; simp
  by_cases h2 : s = []
  · rw [if_neg h1, if_pos h2]; simp
  by_cases h3 : o = []
  · rw [if_neg h1, if_neg h2, if_pos h3]; simp
  rw [if_neg h1, if_neg h2, if_neg h3]
  rcases parseInt64 s with _ | n1 <;> rcases parseInt64 o with _ | n2
  · split_ifs <;> simp
  · simp
  · simp
  · by_cases h : n2 < n1 <;> simp [h]

theorem comparePreParts_cases (ss os : List (List Char)) :
    comparePreParts ss os = -1 ∨ comparePreParts ss os = 0 ∨ comparePreParts ss os = 1 := by
  induction ss, os using comparePreParts.induct with
  | case1 => simp [comparePreParts]
  | case2 s ss o os hd =>
    rw [comparePreParts, if_pos hd]
    have := comparePrePart_cases s o; tauto
  | case3 s ss o os hd ih =>
    rw [comparePreParts, if_neg hd]; exact ih
  | case4 s ss hd =>
    rw [comparePreParts, if_pos hd]
    have := comparePrePart_cases s []; tauto
  | case5 s ss hd ih =>
    rw [comparePreParts, if_neg hd]; exact ih
  | case6 o os hd =>
    rw [comparePreParts, if_pos hd]
    have := comparePrePart_cases [] o; tauto
  | case7 o os hd ih =>
    rw [comparePreParts, if_neg hd]; exact ih

theorem svCompare_cases (a b : SemVer) :
    svCompare a b = -1 ∨ svCompare a b = 0 ∨ svCompare a b = 1 := by
  unfold svCompare comparePrerelease
  split_ifs with h1 h2 h3 h4 h5 h6
  · have := cmpNat_cases a.major b.major; tauto
  · have := cmpNat_cases a.minor b.minor; tauto
  · have := cmpNat_cases a.patch b.patch; tauto
  · simp
  · simp
  · simp
  · exact comparePreParts_cases _ _

theorem Compare_cases (a b : List Char) :
    Compare a b = -1 ∨ Compare a b = 0 ∨ Compare a b = 1 := by
  unfold Compare
  by_cases h1 : a = currentStr ∧ b = currentStr
  · rw [if_pos h1]; simp
  by_cases h2 : a = currentStr
  · rw [if_neg h1, if_pos h2]; simp
  by_cases h3 : b = currentStr
  · rw [if_neg h1, if_neg h2, if_pos h3]; simp
  rw [if_neg h1, if_neg h2, if_neg h3]
  rcases NewVersion a with _ | va <;> rcases NewVersion b with _ | vb
  · split_ifs <;> simp
  · simp
  · simp
  · exact svCompare_cases va vb

theorem takeWhile_all_append {p : Char → Bool} {g : List Char} (r : List Char)
    (hg : ∀ c ∈ g, p c = true) :
    (g ++ r).takeWhile p = g ++ r.takeWhile p ∧ (g ++ r).dropWhile p = r.dropWhile p := by
  induction g with
  | nil => simp
  | cons c g ih =>
    have hc : p c = true := hg c (by simp)
    have ihh := ih (fun x hx => hg x (by simp [hx]))
    simp [List.takeWhile_cons, List.dropWhile_cons, hc, ihh.1, ihh.2]

theorem takeWhile_nil_of_head {p : Char → Bool} {r : List Char}
    (h : ∀ c, r.head? = some c → p c = false) :
    r.takeWhile p = [] ∧ r.dropWhile p = r := by
  cases r with
  | nil => simp
  | cons c r => simp [List.takeWhile_cons, List.dropWhile_cons, h c rfl]

theorem parseNumComp_group {g r : List Char} (hg : numericGroup g)
    (hr : ∀ c, r.head? = some c → isDigitChar c = false) :
    parseNumComp (g ++ r) = some (natOfDigits g, r) := by
  obtain ⟨hne, hdig, hlt⟩ := hg
  have h1 := takeWhile_all_append (p := isDigitChar) r hdig
  have h2 := takeWhile_nil_of_head hr
  unfold parseNumComp
  rw [h1.1, h2.1, h1.2, h2.2, List.append_nil]
  rw [if_neg (by simpa using hne), if_pos hlt]

theorem numericGroup_head_not_v {g : List Char} (r : List Char) (hg : numericGroup g) :
    ¬ ((g ++ r).head? = some 'v') := by
  obtain ⟨hne, hdig, -⟩ := hg
  cases g with
  | nil => exact absurd rfl hne
  | cons c g =>
    intro h
    simp only [List.cons_append, List.head?_cons, Option.some.injEq] at h
    subst h
    have := hdig 'v' (by simp)
    simp [isDigitChar] at this

theorem newVersion_dotted (gs : List (List Char)) (h1 : 1 ≤ gs.length)
    (h3 : gs.length ≤ 3) (hg : ∀ g ∈ gs, numericGroup g) :
    NewVersion (joinSep '.' gs) =
      some ⟨(componentsOf gs).1, (componentsOf gs).2.1, (componentsOf gs).2.2, []⟩ := by
  have hdot : isDigitChar '.' = false := by decide
  match gs with
  | [g1] =>
    have hg1 := hg g1 (by simp)
    have e1 : parseNumComp (g1 ++ []) = some (natOfDigits g1, []) :=
      parseNumComp_group hg1 (by intro c hc; simp at hc)
    rw [List.append_nil] at e1
    have hv := numericGroup_head_not_v [] hg1
    rw [List.append_nil] at hv
    simp only [joinSep, NewVersion, if_neg hv, e1, componentsOf, parseTail]
  | [g1, g2] =>
    have hg1 := hg g1 (by simp)
    have hg2 := hg g2 (by simp)
    have e1 : parseNumComp (g1 ++ '.' :: g2) = some (natOfDigits g1, '.' :: g2) :=
      parseNumComp_group hg1 (by intro c hc; simp only [List.head?_cons, Option.some.injEq] at hc; subst hc; exact hdot)
    have e2 : parseNumComp (g2 ++ []) = some (natOfDigits g2, []) :=
      parseNumComp_group hg2 (by intro c hc; simp at hc)
    rw [List.append_nil] at e2
    have hv := numericGroup_head_not_v ('.' :: g2) hg1
    simp only [joinSep, NewVersion, if_neg hv, e1, e2, componentsOf, parseTail]
  | [g1, g2, g3] =>
    have hg1 := hg g1 (by simp)
    have hg2 := hg g2 (by simp)
    have hg3 := hg g3 (by simp)
    have e1 : parseNumComp (g1 ++ '.' :: (g2 ++ '.' :: g3)) =
        some (natOfDigits g1, '.' :: (g2 ++ '.' :: g3)) :=
      parseNumComp_group hg1 (by intro c hc; simp only [List.head?_cons, Option.some.injEq] at hc; subst hc; exact hdot)
    have e2 : parseNumComp (g2 ++ '.' :: g3) = some (natOfDigits g2, '.' :: g3) :=
      parseNumComp_group hg2 (by intro c hc; simp only [List.head?_cons, Option.some.injEq] at hc; subst hc; exact hdot)
    have e3 : parseNumComp (g3 ++ []) = some (natOfDigits g3, []) :=
      parseNumComp_group hg3 (by intro c hc; simp at hc)
    rw [List.append_nil] at e3
    have hv := numericGroup_head_not_v ('.' :: (g2 ++ '.' :: g3)) hg1
    simp only [joinSep, NewVersion, if_neg hv, e1, e2, e3, componentsOf, parseTail]
  | [] => simp at h1
  | _ :: _ :: _ :: _ :: _ => simp at h3

/-- C6 counterexample: with `a = "current"` and `b = "zzz"` neither
string parses numerically and Go string order says `a < b`, so the
claim's lexicographic-fallback clause demands `-1`, but `Compare`
returns `1` (the "current" sentinel rule wins over the fallback). -/
theorem version_compare_counterexample :
    NewVersion currentStr = none ∧ NewVersion ['z', 'z', 'z'] = none ∧
    listLt currentStr ['z', 'z', 'z'] = true ∧
    Compare currentStr ['z', 'z', 'z'] = 1 ∧
    Compare currentStr ['z', 'z', 'z'] ≠
      (if listLt currentStr ['z', 'z', 'z'] then -1
       else if listLt ['z', 'z', 'z'] currentStr then 1 else 0) := by
  refine ⟨rfl, rfl, by decide, by decide, by decide⟩

/-- C6 (amended: the "current" sentinel rules take precedence — "current"
compares greater than every other string, not only dotted-numeric ones,
and the lexicographic fallback applies only when neither string parses
and neither is "current"): `Compare` returns a value in `{-1,0,1}`;
"current" is equal only to itself and greater than everything else; two
dotted-numeric strings compare component-wise numerically with bare "15"
equivalent to "15.0.0"; if exactly one string parses, the parseable one
compares less; if neither parses (and neither is "current"), comparison
falls back to lexicographic string order. -/
theorem version_compare_spec :
    (∀ a b : List Char, Compare a b = -1 ∨ Compare a b = 0 ∨ Compare a b = 1) ∧
    (Compare currentStr currentStr = 0) ∧
    (∀ a : List Char, a ≠ currentStr →
        Compare currentStr a = 1 ∧ Compare a currentStr = -1) ∧
    (∀ ga gb : List (List Char),
        1 ≤ ga.length → ga.length ≤ 3 → (∀ g ∈ ga, numericGroup g) →
        1 ≤ gb.length → gb.length ≤ 3 → (∀ g ∈ gb, numericGroup g) →
        Compare (joinSep '.' ga) (joinSep '.' gb) =
          cmp3 (componentsOf ga) (componentsOf gb)) ∧
    (∀ (a b : List Char) (va : SemVer), NewVersion a = some va → NewVersion b = none →
        Compare a b = -1 ∧ Compare b a = 1) ∧
    (∀ a b : List Char, NewVersion a = none → NewVersion b = none →
        a ≠ currentStr → b ≠ currentStr →
        Compare a b = if listLt a b then -1 else if listLt b a then 1 else 0) := by
  have hcur : ∀ {x : List Char} {vx : SemVer}, NewVersion x = some vx → x ≠ currentStr := by
    intro x vx hx h
    rw [h, newVersion_currentStr] at hx
    exact Option.noConfusion hx
  refine ⟨Compare_cases, rfl, ?_, ?_, ?_, ?_⟩
  · intro a ha
    constructor
    · unfold Compare
      rw [if_neg (by simp [ha]), if_pos rfl]
    · unfold Compare
      rw [if_neg (by simp [ha]), if_neg ha, if_pos rfl]
  · intro ga gb ha1 ha3 hag hb1 hb3 hbg
    have hva := newVersion_dotted ga ha1 ha3 hag
    have hvb := newVersion_dotted gb hb1 hb3 hbg
    have hna := hcur hva
    have hnb := hcur hvb
    unfold Compare
    rw [if_neg (by simp [hna]), if_neg hna, if_neg hnb, hva, hvb]
    simp only [svCompare, cmp3, List.isEmpty_nil, Bool.and_self, if_true]
    split_ifs <;> simp_all
  · intro a b va hva hvb
    have hna := hcur hva
    constructor
    · unfold Compare
      by_cases hb : b = currentStr
      · rw [if_neg (by simp [hna]), if_neg hna, if_pos hb]
      · rw [if_neg (by simp [hna]), if_neg hna, if_neg hb, hva, hvb]
    · unfold Compare
      by_cases hb : b = currentStr
      · rw [if_neg (by simp [hna]), if_pos hb]
      · rw [if_neg (by simp [hb]), if_neg hb, if_neg hna, hvb, hva]
  · intro a b hva hvb hna hnb
    unfold Compare
    rw [if_neg (by simp [hna]), if_neg hna, if_neg hnb, hva, hvb]

/-- Concrete application of `version_compare_spec`: "17.4" < "18"
component-wise, and "abc" (unparseable) sorts after "1.2" (parseable). -/
theorem version_compare_spec_witness :
    Compare (joinSep '.' [['1', '7'], ['4']]) (joinSep '.' [['1', '8']]) =
      cmp3 (componentsOf [['1', '7'], ['4']]) (componentsOf [['1', '8']]) ∧
    Compare ['1', '.', '2'] ['a', 'b', 'c'] = -1 := by
  constructor
  · exact version_compare_spec.2.2.2.1 [['1', '7'], ['4']] [['1', '8']]
      (by decide) (by decide) (by decide) (by decide) (by decide) (by decide)
  · exact (version_compare_spec.2.2.2.2.1 ['1', '.', '2'] ['a', 'b', 'c']
      ⟨1, 2, 0, []⟩ (by decide) (by decide)).1

/-! ### C2: one result per store, schedule independence -/

theorem get_some_lt_length {α : Type} {l : List α} {i : Nat} {a : α}
    (h : l.get? i = some a) : i < l.length := by
  by_contra hc
  rw [List.get?_len_le (by omega)] at h
  exact Option.noConfusion h

theorem applyTask_length (env : Env) (chain : CertChain) (stores : List Store)
    (acc : List TrustResult) (o : Nat) :
    (applyTask env chain stores acc o).length = acc.length := by
  unfold applyTask
  cases stores.get? o <;> simp

theorem foldl_applyTask_length (env : Env) (chain : CertChain) (stores : List Store) :
    ∀ (order : List Nat) (acc : List TrustResult),
      (order.foldl (applyTask env chain stores) acc).length = acc.length := by
  intro order
  induction order with
  | nil => intro acc; rfl
  | cons o rest ih =>
    intro acc
    rw [List.foldl_cons, ih, applyTask_length]

theorem foldl_applyTask_get_not_mem (env : Env) (chain : CertChain) (stores : List Store) :
    ∀ (order : List Nat) (acc : List TrustResult) (i : Nat), i ∉ order →
      (order.foldl (applyTask env chain stores) acc).get? i = acc.get? i := by
  intro order
  induction order with
  | nil => intro acc i _; rfl
  | cons o rest ih =>
    intro acc i hmem
    rw [List.foldl_cons, ih _ i (fun h => hmem (List.mem_cons_of_mem o h))]
    unfold applyTask
    cases stores.get? o with
    | none => rfl
    | some s =>
      exact List.get?_set_ne _ _ (fun h => hmem (h ▸ List.mem_cons_self o rest))

theorem foldl_applyTask_get_mem (env : Env) (chain : CertChain) (stores : List Store) :
    ∀ (order : List Nat) (acc : List TrustResult), acc.length = stores.length →
      ∀ (i : Nat) (s : Store), stores.get? i = some s → i ∈ order →
      (order.foldl (applyTask env chain stores) acc).get? i =
        some (validateAgainstStore env chain s) := by
  intro order
  induction order with
  | nil =>
    intro acc _ i s _ hmem
    exact absurd hmem (List.not_mem_nil i)
  | cons o rest ih =>
    intro acc hlen i s hget hmem
    rw [List.foldl_cons]
    by_cases hr : i ∈ rest
    · exact ih _ (by rw [applyTask_length, hlen]) i s hget hr
    · have hio : i = o := by
        rcases List.mem_cons.mp hmem with h | h
        · exact h
        · exact absurd h hr
      subst hio
      rw [foldl_applyTask_get_not_mem env chain stores rest _ i hr]
      unfold applyTask
      rw [hget]
      exact List.get?_set_eq_of_lt _ (by rw [hlen]; exact get_some_lt_length hget)

/-- C2: under every completion schedule that lets each task finish,
`ValidateChain` returns exactly one TrustResult per input Store, at the
same index as that Store, and the result at index i is exactly the
result of validating the chain against stores[i] alone — so a failure in
one store never changes any other store's TrustResult, and the outcome
is independent of the goroutines' completion order. -/
theorem validateChain_spec (env : Env) (chain : CertChain) (stores : List Store)
    (order : List Nat) (hcover : ∀ i, i < stores.length → i ∈ order) :
    (validateChainSched env chain stores order).length = stores.length ∧
    (∀ (i : Nat) (s : Store), stores.get? i = some s →
      (validateChainSched env chain stores order).get? i =
        some (validateAgainstStore env chain s)) ∧
    validateChainSched env chain stores order = ValidateChain env chain stores := by
  have hlen : ∀ (ord : List Nat), (validateChainSched env chain stores ord).length =
      stores.length := by
    intro ord
    unfold validateChainSched
    split_ifs with h
    · rw [List.isEmpty_iff.mp h]; rfl
    · rw [foldl_applyTask_length, List.length_replicate]
  have hget : ∀ (ord : List Nat), (∀ i, i < stores.length → i ∈ ord) →
      ∀ (i : Nat) (s : Store), stores.get? i = some s →
      (validateChainSched env chain stores ord).get? i =
        some (validateAgainstStore env chain s) := by
    intro ord hcov i s hs
    have hi := get_some_lt_length hs
    unfold validateChainSched
    split_ifs with h
    · rw [List.isEmpty_iff.mp h] at hi; exact absurd hi (by simp)
    · exact foldl_applyTask_get_mem env chain stores ord _
        (List.length_replicate _ _) i s hs (hcov i hi)
  refine ⟨hlen order, hget order hcover, ?_⟩
  unfold ValidateChain
  apply List.ext_get?
  intro i
  by_cases hi : i < stores.length
  · obtain ⟨s, hs⟩ : ∃ s, stores.get? i = some s := by
      cases h : stores.get? i with
      | none => rw [List.get?_eq_none] at h; omega
      | some s => exact ⟨s, rfl⟩
    rw [hget order hcover i s hs,
      hget (List.range stores.length) (fun j hj => List.mem_range.mpr hj) i s hs]
  · rw [List.get?_len_le (by rw [hlen order]; omega),
      List.get?_len_le (by rw [hlen (List.range stores.length)]; omega)]

/-- Concrete application of `validateChain_spec`: two stores, completion
order reversed, same results as the canonical order. -/
theorem validateChain_spec_witness :
    validateChainSched ⟨fun _ => none, fun _ _ _ => .error .unknownAuthority, 0⟩
        ⟨"h", ⟨[], 0, "", []⟩, [], []⟩
        [⟨"ios", ['1'], [[1]], []⟩, ⟨"android", ['2'], [], []⟩] [1, 0] =
      ValidateChain ⟨fun _ => none, fun _ _ _ => .error .unknownAuthority, 0⟩
        ⟨"h", ⟨[], 0, "", []⟩, [], []⟩
        [⟨"ios", ['1'], [[1]], []⟩, ⟨"android", ['2'], [], []⟩] :=
  (validateChain_spec _ _ _ [1, 0]
    (by
      intro i hi
      simp only [List.length_cons, List.length_nil] at hi
      interval_cases i <;> simp)).2.2

/-! ### C3: the known-but-unavailable-root diagnosis -/

/-- C3: when path verification fails, the supplied intermediate list is
non-empty and the last intermediate's fingerprint is among the store
fingerprints that did not resolve in the registry, the TrustResult is
untrusted with exactly the "chain roots at known CA (fingerprint <FP>)
but certificate data unavailable" reason; and the heuristic inspects
only the last element — when the last intermediate's fingerprint is not
among the missing ones the reason is the classified verify error, no
matter what the leaf or the other positions carry. -/
theorem validateAgainstStore_missing_root :
    (∀ (env : Env) (chain : CertChain) (store : Store) (err : VerifyError) (last : Cert),
      store.fingerprints.filterMap env.certByFingerprint ≠ [] →
      env.verify chain.serverCert (store.fingerprints.filterMap env.certByFingerprint)
        chain.intermediates = .error err →
      chain.intermediates.getLast? = some last →
      last.fp ∈ store.fingerprints.filter (fun fp => (env.certByFingerprint fp).isNone) →
      validateAgainstStore env chain store =
        ⟨⟨store.platform, store.version⟩, false, "", [],
          "chain roots at known CA (fingerprint " ++ fpDisplay last.fp ++
            ") but certificate data unavailable"⟩) ∧
    (∀ (env : Env) (chain : CertChain) (store : Store) (err : VerifyError) (last : Cert),
      store.fingerprints.filterMap env.certByFingerprint ≠ [] →
      env.verify chain.serverCert (store.fingerprints.filterMap env.certByFingerprint)
        chain.intermediates = .error err →
      chain.intermediates.getLast? = some last →
      last.fp ∉ store.fingerprints.filter (fun fp => (env.certByFingerprint fp).isNone) →
      validateAgainstStore env chain store =
        ⟨⟨store.platform, store.version⟩, false, "", [], parseVerifyError err⟩) := by
  constructor
  · intro env chain store err last hroots hverify hlast hmiss
    unfold validateAgainstStore
    rw [if_neg (by simpa [List.isEmpty_iff] using hroots), hverify]
    dsimp only
    rw [hlast]
    dsimp only
    rw [if_pos (List.elem_eq_true_of_mem hmiss)]
  · intro env chain store err last hroots hverify hlast hmiss
    unfold validateAgainstStore
    rw [if_neg (by simpa [List.isEmpty_iff] using hroots), hverify]
    dsimp only
    rw [hlast]
    dsimp only
    rw [if_neg (fun hc => hmiss (List.mem_of_elem_eq_true hc))]

/-- Concrete application of `validateAgainstStore_missing_root`: a store
knowing fingerprints 01 (resolvable) and 02 (unresolvable), a chain whose
last supplied intermediate has fingerprint 02, and a failing verify. -/
theorem validateAgainstStore_missing_root_witness :
    validateAgainstStore
        ⟨fun fp => if fp = [1] then some ⟨[1], 0, "R", []⟩ else none,
         fun _ _ _ => .error .unknownAuthority, 0⟩
        ⟨"e", ⟨[9], 0, "", []⟩, [⟨[2], 0, "", []⟩], []⟩
        ⟨"ios", ['1'], [[1], [2]], []⟩ =
      ⟨⟨"ios", ['1']⟩, false, "", [],
        "chain roots at known CA (fingerprint " ++ fpDisplay [2] ++
          ") but certificate data unavailable"⟩ :=
  validateAgainstStore_missing_root.1
    ⟨fun fp => if fp = [1] then some ⟨[1], 0, "R", []⟩ else none,
     fun _ _ _ => .error .unknownAuthority, 0⟩
    ⟨"e", ⟨[9], 0, "", []⟩, [⟨[2], 0, "", []⟩], []⟩
    ⟨"ios", ['1'], [[1], [2]], []⟩ .unknownAuthority ⟨[2], 0, "", []⟩
    (by decide) rfl rfl (by decide)

/-! ### C7: operator truth table for the `current` sentinel -/

/-- C7: constraint matching implements the §4.3 truth table for the
"current" sentinel — `platform=current` matches only a "current" test;
`platform>N` matches a "current" test for every numeric N; `platform<N`
never matches a "current" test; `platform>=N` matches a "current" test;
`platform<=N` matches a "current" test only if N is itself "current";
and against a numeric test each operator matches exactly according to
the numeric comparison result. -/
theorem matchConstraint_current_table :
    (∀ (p : String) (v : Option SemVer) (ver : List Char),
        matchConstraint ⟨p, .opEqual, v, true⟩ ver = true ↔ ver = currentStr) ∧
    (∀ (p : String) (cv : SemVer),
        matchConstraint ⟨p, .opEqual, some cv, false⟩ currentStr = false) ∧
    (∀ (p : String) (cv : SemVer),
        matchConstraint ⟨p, .opGreater, some cv, false⟩ currentStr = true) ∧
    (∀ (p : String) (cv : SemVer),
        matchConstraint ⟨p, .opLess, some cv, false⟩ currentStr = false) ∧
    (∀ (p : String) (cv : SemVer),
        matchConstraint ⟨p, .opGreaterEqual, some cv, false⟩ currentStr = true) ∧
    (∀ (p : String) (cv : SemVer),
        matchConstraint ⟨p, .opLessEqual, some cv, false⟩ currentStr = false) ∧
    (∀ (p : String) (v : Option SemVer),
        matchConstraint ⟨p, .opLessEqual, v, true⟩ currentStr = true) ∧
    (∀ (p : String) (op : Operator) (cv v : SemVer) (ver : List Char),
        NewVersion ver = some v →
        matchConstraint ⟨p, op, some cv, false⟩ ver = matchSemver op (svCompare v cv)) ∧
    (∀ (cmp : Int),
        (matchSemver .opEqual cmp = true ↔ cmp = 0) ∧
        (matchSemver .opGreater cmp = true ↔ 0 < cmp) ∧
        (matchSemver .opLess cmp = true ↔ cmp < 0) ∧
        (matchSemver .opGreaterEqual cmp = true ↔ 0 ≤ cmp) ∧
        (matchSemver .opLessEqual cmp = true ↔ cmp ≤ 0)) := by
  refine ⟨?_, ?_, ?_, ?_, ?_, ?_, ?_, ?_, ?_⟩
  · intro p v ver
    cases v <;> simp [matchConstraint, matchCurrentConstraint]
  · intro p cv; simp [matchConstraint, matchCurrentVersion]
  · intro p cv; simp [matchConstraint, matchCurrentVersion]
  · intro p cv; simp [matchConstraint, matchCurrentVersion]
  · intro p cv; simp [matchConstraint, matchCurrentVersion]
  · intro p cv; simp [matchConstraint, matchCurrentVersion]
  · intro p v
    cases v <;> simp [matchConstraint, matchCurrentConstraint]
  · intro p op cv v ver hver
    have hne : ver ≠ currentStr := by
      intro h; rw [h, newVersion_currentStr] at hver; exact Option.noConfusion hver
    simp [matchConstraint, hne, hver]
  · intro cmp
    refine ⟨?_, ?_, ?_, ?_, ?_⟩ <;> simp [matchSemver]

/-- Concrete application of `matchConstraint_current_table`: a numeric
test "140" against `chrome>=139`. -/
theorem matchConstraint_current_table_witness :
    matchConstraint ⟨"chrome", .opGreaterEqual, some ⟨139, 0, 0, []⟩, false⟩
        ['1', '4', '0'] =
      matchSemver .opGreaterEqual (svCompare ⟨140, 0, 0, []⟩ ⟨139, 0, 0, []⟩) :=
  matchConstraint_current_table.2.2.2.2.2.2.2.1 "chrome" .opGreaterEqual
    ⟨139, 0, 0, []⟩ ⟨140, 0, 0, []⟩ ['1', '4', '0'] (by decide)

/-! ### C9: platforms absent from the filter -/

/-- C9 counterexample: a non-nil Filter with an empty constraint list
matches a PlatformVersion whose platform appears nowhere in the filter
(`Match` returns `true` for every test when `len(f.Constraints) == 0`). -/
theorem filterMatch_empty_filter_counterexample :
    filterMatch (some ⟨[]⟩) ⟨"ios", ['1', '8']⟩ = true := rfl

/-- C9 (amended: for every non-nil Filter whose constraint list is
non-empty): a PlatformVersion whose platform is not named in any of the
filter's constraints never matches. -/
theorem filterMatch_unnamed_platform (f : Filter) (pv : PlatformVersion)
    (hne : f.constraints ≠ [])
    (habs : ∀ c ∈ f.constraints, c.platform ≠ pv.platform) :
    filterMatch (some f) pv = false := by
  have hempty : f.constraints.isEmpty = false := by
    cases h : f.constraints with
    | nil => exact absurd h hne
    | cons a t => rfl
  have hfilter : f.constraints.filter (fun c => c.platform == pv.platform) = [] := by
    refine List.filter_eq_nil_iff.mpr ?_
    intro c hc
    simpa using habs c hc
  simp [filterMatch, hempty, hfilter]

/-- Concrete application of `filterMatch_unnamed_platform`: the filter
`ios>=15` never matches a macOS snapshot. -/
theorem filterMatch_unnamed_platform_witness :
    filterMatch (some ⟨[⟨"ios", .opGreaterEqual, some ⟨15, 0, 0, []⟩, false⟩]⟩)
      ⟨"macos", ['1', '8']⟩ = false :=
  filterMatch_unnamed_platform _ _ (by simp) (by decide)

/-! ### C4: accepted fingerprint formats -/

theorem separatorMatch_iff (l : List Char) : separatorMatch l = true ↔ sepShape l := by
  unfold separatorMatch sepShape
  simp only [Bool.or_eq_true]
  rw [sepRun_iff, sepRun_iff, sepRun_iff]
  constructor
  · rintro ((h | h) | h)
    · obtain ⟨pairs, hlen, hpair, rfl⟩ := h
      exact ⟨':', by simp, pairs, hlen, hpair, rfl⟩
    · obtain ⟨pairs, hlen, hpair, rfl⟩ := h
      exact ⟨'-', by simp, pairs, hlen, hpair, rfl⟩
    · obtain ⟨pairs, hlen, hpair, rfl⟩ := h
      exact ⟨' ', by simp, pairs, hlen, hpair, rfl⟩
  · rintro ⟨sep, hsep, pairs, hlen, hpair, rfl⟩
    simp only [List.mem_cons, List.mem_singleton, List.not_mem_nil, or_false] at hsep
    rcases hsep with rfl | rfl | rfl
    · exact Or.inl (Or.inl ⟨pairs, hlen, hpair, rfl⟩)
    · exact Or.inl (Or.inr ⟨pairs, hlen, hpair, rfl⟩)
    · exact Or.inr ⟨pairs, hlen, hpair, rfl⟩

theorem joinSep_length (sep : Char) : ∀ (pairs : List (List Char)),
    (∀ p ∈ pairs, p.length = 2) → pairs ≠ [] →
    (joinSep sep pairs).length = 3 * pairs.length - 1 := by
  intro pairs
  induction pairs with
  | nil => intro _ h; exact absurd rfl h
  | cons p ps ih =>
    intro hp _
    cases ps with
    | nil => simp [joinSep, hp p (by simp)]
    | cons q qs =>
      rw [joinSep_cons sep p (by simp)]
      have hlen := ih (fun r hr => hp r (by simp [hr])) (by simp)
      simp only [List.length_append, List.length_cons, hp p (by simp), hlen]
      omega

theorem sepShape_length {m : List Char} (h : sepShape m) : m.length = 95 := by
  obtain ⟨sep, hsep, pairs, hlen, hpair, rfl⟩ := h
  rw [joinSep_length sep pairs
    (fun p hp => by obtain ⟨c1, c2, rfl, -, -⟩ := hpair p hp; rfl)
    (by intro hc; rw [hc] at hlen; simp at hlen), hlen]

theorem parseFingerprintCore_ok_iff (m : List Char) :
    (∃ fp, parseFingerprintCore m = .ok fp) ↔ (rawShape m ∨ sepShape m) := by
  constructor
  · rintro ⟨fp, hfp⟩
    unfold parseFingerprintCore at hfp
    by_cases hemp : m.isEmpty
    · rw [if_pos hemp] at hfp
      exact absurd hfp (by simp)
    rw [if_neg hemp] at hfp
    by_cases hraw : rawHexMatch m
    · exact Or.inl ((rawHexMatch_iff m).mp hraw)
    by_cases hsep : separatorMatch m
    · exact Or.inr ((separatorMatch_iff m).mp hsep)
    · rw [if_neg hraw, if_neg hsep] at hfp
      exact absurd hfp (by simp)
  · rintro (h | h)
    · obtain ⟨hlen, hhex⟩ := h
      obtain ⟨bs, hbs, -, -⟩ := hexDecode_all_hex m (by rw [hlen]) hhex
      refine ⟨bs, ?_⟩
      unfold parseFingerprintCore
      rw [if_neg (by rw [List.isEmpty_iff_length_eq_zero, hlen]; simp),
        if_pos ((rawHexMatch_iff m).mpr ⟨hlen, hhex⟩)]
      dsimp only
      rw [hbs]
    · have hmlen := sepShape_length h
      obtain ⟨sep, hsep, pairs, hlen, hpair, rfl⟩ := h
      have hpair2 : ∀ p ∈ pairs, ∃ c1 c2, p = [c1, c2] := by
        intro p hp
        obtain ⟨c1, c2, hpp, -, -⟩ := hpair p hp
        exact ⟨c1, c2, hpp⟩
      have hne : pairs ≠ [] := by
        intro hc; rw [hc] at hlen; simp at hlen
      have hflat_hex : ∀ c ∈ pairs.flatten, isHexDigit c = true := by
        intro c hc
        obtain ⟨p, hp, hcp⟩ := List.mem_join.mp hc
        obtain ⟨c1, c2, rfl, h1, h2⟩ := hpair p hp
        rcases List.mem_cons.mp hcp with rfl | hcp2
        · exact h1
        · rw [List.mem_singleton.mp hcp2]
          exact h2
      have hflat_len : pairs.flatten.length = 64 := by
        rw [List.length_join]
        have hmap : pairs.map List.length = List.replicate 32 2 := by
          apply List.eq_replicate.mpr
          constructor
          · simp [hlen]
          · intro b hb
            obtain ⟨p, hp, rfl⟩ := List.mem_map.mp hb
            obtain ⟨c1, c2, rfl⟩ := hpair2 p hp
            rfl
        rw [hmap, List.sum_const_nat]
      obtain ⟨bs, hbs, -, -⟩ := hexDecode_all_hex pairs.flatten (by rw [hflat_len]) hflat_hex
      refine ⟨bs, ?_⟩
      unfold parseFingerprintCore
      rw [if_neg (by rw [List.isEmpty_iff_length_eq_zero, hmlen]; simp),
        if_neg (by
          intro hraw
          have h64 := ((rawHexMatch_iff _).mp hraw).1
          omega),
        if_pos ((separatorMatch_iff _).mpr ⟨sep, hsep, pairs, hlen, hpair, rfl⟩)]
      dsimp only
      rw [splitPairs_joinSep sep pairs hpair2 hne]
      rw [if_neg (by rw [hlen]; simp)]
      dsimp only
      rw [hbs]

/-- C4: ParseFingerprint (after whitespace trimming) accepts exactly two
input shapes — 64 contiguous hex characters, or 32 two-character hex
groups joined by a single, consistent separator from `{':','-',' '}` —
and returns an error for every other input, including mixed separators,
a doubled separator, a leading or trailing separator, wrong pair count,
non-hex characters, wrong raw length, and empty input. -/
theorem parseFingerprint_accepts_iff :
    (∀ l : List Char, (∃ fp, ParseFingerprint l = .ok fp) ↔
        (rawShape (trimSpace l) ∨ sepShape (trimSpace l))) ∧
    exceptIsOk (ParseFingerprint
      (['A', 'A', ':', 'A', 'A', '-'] ++ joinSep ':' (List.replicate 30 ['A', 'A']))) =
        false ∧
    exceptIsOk (ParseFingerprint
      (['A', 'A', ':', ':'] ++ joinSep ':' (List.replicate 31 ['A', 'A']))) = false ∧
    exceptIsOk (ParseFingerprint
      (':' :: joinSep ':' (List.replicate 32 ['A', 'A']))) = false ∧
    exceptIsOk (ParseFingerprint
      (joinSep ':' (List.replicate 32 ['A', 'A']) ++ [':'])) = false ∧
    exceptIsOk (ParseFingerprint (joinSep ':' (List.replicate 31 ['A', 'A']))) = false ∧
    exceptIsOk (ParseFingerprint (joinSep ':' (List.replicate 33 ['A', 'A']))) = false ∧
    exceptIsOk (ParseFingerprint
      (joinSep ':' (['G', 'A'] :: List.replicate 31 ['A', 'A']))) = false ∧
    exceptIsOk (ParseFingerprint (List.replicate 63 'A')) = false ∧
    exceptIsOk (ParseFingerprint []) = false := by
  have hmain : ∀ l : List Char, (∃ fp, ParseFingerprint l = .ok fp) ↔
      (rawShape (trimSpace l) ∨ sepShape (trimSpace l)) := by
    intro l
    unfold ParseFingerprint
    exact parseFingerprintCore_ok_iff (trimSpace l)
  exact ⟨hmain, by decide, by decide, by decide, by decide, by decide, by decide,
    by decide, by decide, by decide⟩

/-- Concrete application of `parseFingerprint_accepts_iff`: 64 lowercase
hex characters are accepted. -/
theorem parseFingerprint_accepts_iff_witness :
    ∃ fp, ParseFingerprint (List.replicate 64 'a') = .ok fp :=
  (parseFingerprint_accepts_iff.1 (List.replicate 64 'a')).mpr (Or.inl (by decide))

/-! ### C5: round-trip through the canonical form -/

theorem hexDigitU_facts : ∀ d, d < 16 →
    isHexDigit (hexDigitU d) = true ∧ hexVal (hexDigitU d) = d ∧
    isUpperHexDigit (hexDigitU d) = true ∧ isSpaceChar (hexDigitU d) = false := by
  decide

theorem parseFingerprintCore_ok_wf {m : List Char} {fp : Fingerprint}
    (hfp : parseFingerprintCore m = .ok fp) :
    fp.length = 32 ∧ ∀ b ∈ fp, b < 256 := by
  have hshape := (parseFingerprintCore_ok_iff m).mp ⟨fp, hfp⟩
  unfold parseFingerprintCore at hfp
  rcases hshape with h | h
  · obtain ⟨hlen, hhex⟩ := h
    obtain ⟨bs, hbs, hblen, hbb⟩ := hexDecode_all_hex m (by rw [hlen]) hhex
    rw [if_neg (by rw [List.isEmpty_iff_length_eq_zero, hlen]; simp),
      if_pos ((rawHexMatch_iff m).mpr ⟨hlen, hhex⟩)] at hfp
    dsimp only at hfp
    rw [hbs] at hfp
    obtain rfl : bs = fp := by
      injection hfp
    rw [hblen, hlen]
    exact ⟨rfl, hbb⟩
  · have hmlen := sepShape_length h
    obtain ⟨sep, hsep, pairs, hlen, hpair, rfl⟩ := h
    have hpair2 : ∀ p ∈ pairs, ∃ c1 c2, p = [c1, c2] := by
      intro p hp
      obtain ⟨c1, c2, hpp, -, -⟩ := hpair p hp
      exact ⟨c1, c2, hpp⟩
    have hne : pairs ≠ [] := by
      intro hc; rw [hc] at hlen; simp at hlen
    have hflat_hex : ∀ c ∈ pairs.flatten, isHexDigit c = true := by
      intro c hc
      obtain ⟨p, hp, hcp⟩ := List.mem_join.mp hc
      obtain ⟨c1, c2, rfl, h1, h2⟩ := hpair p hp
      rcases List.mem_cons.mp hcp with rfl | hcp2
      · exact h1
      · rw [List.mem_singleton.mp hcp2]
        exact h2
    have hflat_len : pairs.flatten.length = 64 := by
      rw [List.length_join]
      have hmap : pairs.map List.length = List.replicate 32 2 := by
        apply List.eq_replicate.mpr
        refine ⟨by simp [hlen], ?_⟩
        intro b hb
        obtain ⟨p, hp, rfl⟩ := List.mem_map.mp hb
        obtain ⟨c1, c2, rfl⟩ := hpair2 p hp
        rfl
      rw [hmap, List.sum_const_nat]
    obtain ⟨bs, hbs, hblen, hbb⟩ :=
      hexDecode_all_hex pairs.flatten (by rw [hflat_len]) hflat_hex
    rw [if_neg (by rw [List.isEmpty_iff_length_eq_zero, hmlen]; simp),
      if_neg (by
        intro hraw
        have h64 := ((rawHexMatch_iff _).mp hraw).1
        omega),
      if_pos ((separatorMatch_iff _).mpr ⟨sep, hsep, pairs, hlen, hpair, rfl⟩)] at hfp
    dsimp only at hfp
    rw [splitPairs_joinSep sep pairs hpair2 hne] at hfp
    rw [if_neg (by rw [hlen]; simp)] at hfp
    dsimp only at hfp
    rw [hbs] at hfp
    obtain rfl : bs = fp := by
      injection hfp
    rw [hblen, hflat_len]
    exact ⟨rfl, hbb⟩

theorem mem_joinSep {c sep : Char} : ∀ {ps : List (List Char)},
    c ∈ joinSep sep ps → c = sep ∨ ∃ p ∈ ps, c ∈ p := by
  intro ps
  induction ps with
  | nil => intro h; simp [joinSep] at h
  | cons p qs ih =>
    intro h
    cases qs with
    | nil =>
      simp only [joinSep] at h
      exact Or.inr ⟨p, by simp, h⟩
    | cons q rs =>
      rw [joinSep_cons sep p (by simp)] at h
      rcases List.mem_append.mp h with h' | h'
      · exact Or.inr ⟨p, by simp, h'⟩
      · rcases List.mem_cons.mp h' with rfl | h''
        · exact Or.inl rfl
        · rcases ih h'' with h3 | ⟨r, hr, hcr⟩
          · exact Or.inl h3
          · exact Or.inr ⟨r, by simp [hr], hcr⟩

theorem trimSpace_eq_self {l : List Char} (h : ∀ c ∈ l, isSpaceChar c = false) :
    trimSpace l = l := by
  unfold trimSpace
  have h1 : l.dropWhile isSpaceChar = l := by
    cases l with
    | nil => rfl
    | cons c r => rw [List.dropWhile_cons_of_neg (by simp [h c (by simp)])]
  rw [h1]
  have h2 : l.reverse.dropWhile isSpaceChar = l.reverse := by
    cases hr : l.reverse with
    | nil => rfl
    | cons c r =>
      rw [List.dropWhile_cons_of_neg]
      simp only [Bool.not_eq_true]
      refine h c ?_
      rw [← List.mem_reverse, hr]
      simp
  rw [h2, List.reverse_reverse]

theorem fpString_sepShape {fp : Fingerprint} (hlen : fp.length = 32)
    (hb : ∀ b ∈ fp, b < 256) :
    sepShape (fpString fp) ∧ ∀ c ∈ fpString fp, isSpaceChar c = false := by
  have hpair : ∀ p ∈ fp.map byteHexPair, ∃ c1 c2, p = [c1, c2] ∧
      isHexDigit c1 = true ∧ isHexDigit c2 = true := by
    intro p hp
    obtain ⟨b, hbmem, rfl⟩ := List.mem_map.mp hp
    have hdiv : b / 16 < 16 := by have := hb b hbmem; omega
    have hmod : b % 16 < 16 := Nat.mod_lt b (by norm_num)
    exact ⟨hexDigitU (b / 16), hexDigitU (b % 16), rfl,
      (hexDigitU_facts _ hdiv).1, (hexDigitU_facts _ hmod).1⟩
  constructor
  · exact ⟨':', by simp, fp.map byteHexPair, by simp [hlen], hpair, rfl⟩
  · intro c hc
    rcases mem_joinSep hc with rfl | ⟨p, hp, hcp⟩
    · rfl
    · obtain ⟨c1, c2, rfl, -, -⟩ := hpair p hp
      obtain ⟨b, hbmem, hpb⟩ := List.mem_map.mp hp
      have hdiv : b / 16 < 16 := by have := hb b hbmem; omega
      have hmod : b % 16 < 16 := Nat.mod_lt b (by norm_num)
      have : c1 = hexDigitU (b / 16) ∧ c2 = hexDigitU (b % 16) := by
        unfold byteHexPair at hpb
        exact ⟨by injection hpb.symm, by
          have := congrArg (fun x => x.get? 1) hpb
          simpa using this.symm⟩
      rcases List.mem_cons.mp hcp with rfl | hcp2
      · rw [this.1]
        exact (hexDigitU_facts _ hdiv).2.2.2
      · rw [List.mem_singleton.mp hcp2, this.2]
        exact (hexDigitU_facts _ hmod).2.2.2

theorem hexDecode_byteHexPairs : ∀ (bs : List Nat), (∀ b ∈ bs, b < 256) →
    hexDecode (bs.map byteHexPair).flatten = some bs := by
  intro bs
  induction bs with
  | nil => intro _; rfl
  | cons b rest ih =>
    intro hb
    have hblt : b < 256 := hb b (by simp)
    have hdiv : b / 16 < 16 := by omega
    have hmod : b % 16 < 16 := Nat.mod_lt b (by norm_num)
    have f1 := hexDigitU_facts _ hdiv
    have f2 := hexDigitU_facts _ hmod
    simp only [List.map_cons, List.flatten_cons, byteHexPair, List.cons_append,
      List.nil_append]
    unfold hexDecode
    rw [if_pos (by rw [f1.1, f2.1]; rfl)]
    rw [ih (fun x hx => hb x (by simp [hx]))]
    have hv : 16 * hexVal (hexDigitU (b / 16)) + hexVal (hexDigitU (b % 16)) = b := by
      rw [f1.2.1, f2.2.1]
      omega
    simp [hv]

/-- C5: for every string accepted by ParseFingerprint, parsing the
canonical String form of the parsed value succeeds and yields the same
Fingerprint — the round-trip through the canonical uppercase
colon-separated form is a fixed point. -/
theorem parseFingerprint_roundtrip (l : List Char) (fp : Fingerprint)
    (h : ParseFingerprint l = .ok fp) :
    ParseFingerprint (fpString fp) = .ok fp ∧
    ParseFingerprint (fpString fp) = ParseFingerprint l := by
  obtain ⟨hlen, hb⟩ := parseFingerprintCore_ok_wf h
  obtain ⟨hshape, hnospace⟩ := fpString_sepShape hlen hb
  have hslen := sepShape_length hshape
  have hok : ParseFingerprint (fpString fp) = .ok fp := by
    unfold ParseFingerprint
    rw [trimSpace_eq_self hnospace]
    unfold parseFingerprintCore
    rw [if_neg (by rw [List.isEmpty_iff_length_eq_zero, hslen]; simp),
      if_neg (by
        intro hraw
        have h64 := ((rawHexMatch_iff _).mp hraw).1
        omega),
      if_pos ((separatorMatch_iff _).mpr hshape)]
    dsimp only
    unfold fpString
    rw [splitPairs_joinSep ':' (fp.map byteHexPair)
      (by
        intro p hp
        obtain ⟨b, hbmem, rfl⟩ := List.mem_map.mp hp
        exact ⟨_, _, rfl⟩)
      (by
        intro hc
        have := congrArg List.length hc
        simp [hlen] at this)]
    rw [if_neg (by simp [hlen])]
    dsimp only
    rw [hexDecode_byteHexPairs fp hb]
  exact ⟨hok, by rw [hok, h]⟩

/-- Concrete application of `parseFingerprint_roundtrip`: the canonical
form of the fingerprint parsed from 64 `a`s re-parses to itself. -/
theorem parseFingerprint_roundtrip_witness :
    ParseFingerprint (fpString (List.replicate 32 170)) = .ok (List.replicate 32 170) :=
  (parseFingerprint_roundtrip (List.replicate 64 'a') (List.replicate 32 170)
    (by rfl)).1

/-! ### C10: case-insensitivity and canonical form -/

theorem hex_not_space {c : Char} (h : isHexDigit c = true) : isSpaceChar c = false := by
  cases hb : isSpaceChar c with
  | false => rfl
  | true =>
    exfalso
    unfold isHexDigit at h
    unfold isSpaceChar at hb
    simp only [Bool.or_eq_true, Bool.and_eq_true, decide_eq_true_eq, beq_iff_eq] at h hb
    omega

theorem hex_ne_sep {c sep : Char} (h : isHexDigit c = true)
    (hsep : isHexDigit sep = false) : (c == sep) = false := by
  rw [beq_eq_false_iff_ne]
  rintro rfl
  rw [h] at hsep
  exact Bool.noConfusion hsep

theorem sameHexChar_facts {c c' : Char} (h : sameHexChar c c') :
    isHexDigit c' = isHexDigit c ∧ isSpaceChar c' = isSpaceChar c ∧
    (isHexDigit c = true → hexVal c' = hexVal c) ∧
    (isHexDigit c = false → c' = c) := by
  rcases h with rfl | ⟨h1, h2, h3⟩
  · exact ⟨rfl, rfl, fun _ => rfl, fun _ => rfl⟩
  · exact ⟨by rw [h1, h2], by rw [hex_not_space h1, hex_not_space h2],
      fun _ => h3.symm, fun hf => absurd h1 (by simp [hf])⟩

theorem forall₂_dropWhile {l l' : List Char} (h : List.Forall₂ sameHexChar l l') :
    List.Forall₂ sameHexChar (l.dropWhile isSpaceChar) (l'.dropWhile isSpaceChar) := by
  induction h with
  | nil => simp
  | @cons a b as bs hab hrest ih =>
    by_cases hs : isSpaceChar a = true
    · rw [List.dropWhile_cons_of_pos hs,
        List.dropWhile_cons_of_pos (by rw [(sameHexChar_facts hab).2.1]; exact hs)]
      exact ih
    · rw [List.dropWhile_cons_of_neg hs,
        List.dropWhile_cons_of_neg (by rw [(sameHexChar_facts hab).2.1]; exact hs)]
      exact List.Forall₂.cons hab hrest

theorem forall₂_trimSpace {l l' : List Char} (h : List.Forall₂ sameHexChar l l') :
    List.Forall₂ sameHexChar (trimSpace l) (trimSpace l') := by
  unfold trimSpace
  exact List.forall₂_reverse_iff.mpr
    (forall₂_dropWhile (List.forall₂_reverse_iff.mpr (forall₂_dropWhile h)))

theorem hexDecode_congr : ∀ {m m' : List Char}, List.Forall₂ sameHexChar m m' →
    hexDecode m' = hexDecode m := by
  intro m
  induction m using hexDecode.induct with
  | case1 =>
    intro m' h
    cases h
    rfl
  | case2 c =>
    intro m' h
    cases h with
    | cons h1 ht => cases ht; rfl
  | case3 c1 c2 rest hcond ih =>
    intro m' h
    cases h with
    | cons h1 ht =>
      cases ht with
      | cons h2 hrest =>
        have f1 := sameHexChar_facts h1
        have f2 := sameHexChar_facts h2
        simp only [Bool.and_eq_true] at hcond
        unfold hexDecode
        rw [if_pos (by rw [f1.1, f2.1, hcond.1, hcond.2]; rfl),
          if_pos (by rw [hcond.1, hcond.2]; rfl)]
        rw [ih hrest, f1.2.2.1 hcond.1, f2.2.2.1 hcond.2]
  | case4 c1 c2 rest hcond =>
    intro m' h
    cases h with
    | cons h1 ht =>
      cases ht with
      | cons h2 hrest =>
        have f1 := sameHexChar_facts h1
        have f2 := sameHexChar_facts h2
        unfold hexDecode
        rw [if_neg (by rw [f1.1, f2.1]; exact hcond), if_neg hcond]

theorem all_hex_congr : ∀ {m m' : List Char}, List.Forall₂ sameHexChar m m' →
    m'.all isHexDigit = m.all isHexDigit := by
  intro m m' h
  induction h with
  | nil => rfl
  | @cons a b as bs hab hrest ih =>
    simp only [List.all_cons, ih, (sameHexChar_facts hab).1]

theorem rawHexMatch_congr {m m' : List Char} (h : List.Forall₂ sameHexChar m m') :
    rawHexMatch m' = rawHexMatch m := by
  unfold rawHexMatch
  rw [all_hex_congr h, h.length_eq]

theorem sepRun_congr {sep : Char} (hsep : isHexDigit sep = false) :
    ∀ (n : Nat) {m m' : List Char}, List.Forall₂ sameHexChar m m' →
    sepRun sep n m' = sepRun sep n m := by
  intro n
  induction n with
  | zero =>
    intro m m' h
    cases h with
    | nil => rfl
    | cons h1 ht =>
      cases ht with
      | nil => rfl
      | cons h2 ht2 =>
        have f1 := sameHexChar_facts h1
        have f2 := sameHexChar_facts h2
        cases ht2 with
        | nil => simp [sepRun, f1.1, f2.1]
        | cons h3 ht3 => simp [sepRun, f1.1, f2.1]
  | succ n ih =>
    intro m m' h
    cases h with
    | nil => rfl
    | cons h1 ht =>
      cases ht with
      | nil => rfl
      | cons h2 ht2 =>
        have f1 := sameHexChar_facts h1
        have f2 := sameHexChar_facts h2
        cases ht2 with
        | nil => simp [sepRun, f1.1, f2.1]
        | @cons s s' rest rest' h3 ht3 =>
          have hbeq : (s' == sep) = (s == sep) := by
            cases hhex : isHexDigit s with
            | true =>
              rw [hex_ne_sep hhex hsep,
                hex_ne_sep (by rw [(sameHexChar_facts h3).1, hhex]) hsep]
            | false => rw [(sameHexChar_facts h3).2.2.2 hhex]
          simp only [sepRun, f1.1, f2.1, hbeq, ih ht3]

theorem separatorMatch_congr {m m' : List Char} (h : List.Forall₂ sameHexChar m m') :
    separatorMatch m' = separatorMatch m := by
  unfold separatorMatch
  rw [sepRun_congr (by decide) 31 h, sepRun_congr (by decide) 31 h,
    sepRun_congr (by decide) 31 h]

theorem splitPairs_flatten_congr : ∀ {m m' : List Char},
    List.Forall₂ sameHexChar m m' →
    List.Forall₂ sameHexChar (splitPairs m).flatten (splitPairs m').flatten := by
  intro m
  induction m using splitPairs.induct with
  | case1 c1 c2 =>
    intro m' h
    cases h with
    | cons h1 ht =>
      cases ht with
      | cons h2 ht2 =>
        cases ht2
        exact List.Forall₂.cons h1 (List.Forall₂.cons h2 List.Forall₂.nil)
  | case2 c1 c2 x rest ih =>
    intro m' h
    cases h with
    | cons h1 ht =>
      cases ht with
      | cons h2 ht2 =>
        cases ht2 with
        | cons h3 ht3 =>
          simp only [splitPairs, List.flatten_cons]
          exact List.rel_append (List.Forall₂.cons h1 (List.Forall₂.cons h2 List.Forall₂.nil))
            (ih ht3)
  | case3 t hne1 hne2 =>
    intro m' h
    cases t with
    | nil =>
      cases h
      exact List.Forall₂.nil
    | cons a t2 =>
      cases t2 with
      | nil =>
        cases h with
        | cons h1 ht => cases ht; exact List.Forall₂.nil
      | cons b t3 =>
        cases t3 with
        | nil => exact absurd rfl (hne1 a b)
        | cons x t4 => exact absurd rfl (hne2 a b x t4)

theorem splitPairs_length_congr : ∀ {m m' : List Char},
    List.Forall₂ sameHexChar m m' →
    (splitPairs m').length = (splitPairs m).length := by
  intro m
  induction m using splitPairs.induct with
  | case1 c1 c2 =>
    intro m' h
    cases h with
    | cons h1 ht =>
      cases ht with
      | cons h2 ht2 => cases ht2; rfl
  | case2 c1 c2 x rest ih =>
    intro m' h
    cases h with
    | cons h1 ht =>
      cases ht with
      | cons h2 ht2 =>
        cases ht2 with
        | cons h3 ht3 => simp only [splitPairs, List.length_cons, ih ht3]
  | case3 t hne1 hne2 =>
    intro m' h
    cases t with
    | nil => cases h; rfl
    | cons a t2 =>
      cases t2 with
      | nil =>
        cases h with
        | cons h1 ht => cases ht; rfl
      | cons b t3 =>
        cases t3 with
        | nil => exact absurd rfl (hne1 a b)
        | cons x t4 => exact absurd rfl (hne2 a b x t4)

theorem parseFingerprintCore_congr {m m' : List Char}
    (h : List.Forall₂ sameHexChar m m') :
    parseFingerprintCore m' = parseFingerprintCore m := by
  have hemp : m'.isEmpty = m.isEmpty := by cases h <;> rfl
  unfold parseFingerprintCore
  dsimp only
  rw [hemp, rawHexMatch_congr h, separatorMatch_congr h, splitPairs_length_congr h]
  split_ifs with h1 h2 h3 h4
  · rfl
  · dsimp only
    rw [hexDecode_congr h]
  · rfl
  · dsimp only
    rw [hexDecode_congr (splitPairs_flatten_congr h)]
  · rfl

theorem parseFingerprint_congr {l l' : List Char}
    (h : List.Forall₂ sameHexChar l l') :
    ParseFingerprint l' = ParseFingerprint l := by
  unfold ParseFingerprint
  exact parseFingerprintCore_congr (forall₂_trimSpace h)

theorem forall₂_replicate {R : Char → Char → Prop} {a b : Char} (h : R a b) :
    ∀ n, List.Forall₂ R (List.replicate n a) (List.replicate n b) := by
  intro n
  induction n with
  | zero => exact List.Forall₂.nil
  | succ n ih =>
    rw [List.replicate_succ, List.replicate_succ]
    exact List.Forall₂.cons h ih

/-- C10: ParseFingerprint is case-insensitive in the hex digits — any
input obtained by changing hex digits of an accepted input to
case-variants (and keeping every other character) parses to the same
Fingerprint — and the canonical String form of any parsed value is
always 32 uppercase hex pairs joined by `:`. -/
theorem parseFingerprint_case_insensitive :
    (∀ (l l' : List Char) (fp : Fingerprint), List.Forall₂ sameHexChar l l' →
        ParseFingerprint l = .ok fp → ParseFingerprint l' = .ok fp) ∧
    (∀ (l : List Char) (fp : Fingerprint), ParseFingerprint l = .ok fp →
        ∃ pairs : List (List Char), pairs.length = 32 ∧
          (∀ p ∈ pairs, ∃ c1 c2, p = [c1, c2] ∧
            isUpperHexDigit c1 = true ∧ isUpperHexDigit c2 = true) ∧
          fpString fp = joinSep ':' pairs) := by
  constructor
  · intro l l' fp h hok
    rw [parseFingerprint_congr h]
    exact hok
  · intro l fp hok
    obtain ⟨hlen, hb⟩ := parseFingerprintCore_ok_wf hok
    refine ⟨fp.map byteHexPair, by simp [hlen], ?_, rfl⟩
    intro p hp
    obtain ⟨b, hbmem, rfl⟩ := List.mem_map.mp hp
    have hdiv : b / 16 < 16 := by have := hb b hbmem; omega
    have hmod : b % 16 < 16 := Nat.mod_lt b (by norm_num)
    exact ⟨hexDigitU (b / 16), hexDigitU (b % 16), rfl,
      (hexDigitU_facts _ hdiv).2.2.1, (hexDigitU_facts _ hmod).2.2.1⟩

/-- Concrete application of `parseFingerprint_case_insensitive`: the
all-uppercase variant of 64 `a`s parses to the same fingerprint. -/
theorem parseFingerprint_case_insensitive_witness :
    ParseFingerprint (List.replicate 64 'A') = .ok (List.replicate 32 170) :=
  parseFingerprint_case_insensitive.1 (List.replicate 64 'a') (List.replicate 64 'A')
    (List.replicate 32 170) (forall₂_replicate (Or.inr (by decide)) 64) (by rfl)

end Certvet
